import Mathlib

/-!
Verification of the query/relationship engine of the assets-backend
repository (src/eloquent/EloquentBuilder.ts, src/eloquent/relationships.ts)
against its natural-language specification.

The embedding is shallow: the TypeScript code is translated into
executable Lean definitions.  JavaScript runtime values that flow through
the layer (column values, clause parameters, document fields) are modelled
by the inductive type `Value`; JS `undefined` is modelled by `Option.none`
where the code distinguishes it (attribute lookup), while SQL/Mongo `null`
is the explicit `Value.vNull`.  Store drivers (MySQL, MongoDB) are external
to the repository; their evaluation of the compiled artefacts is modelled
by standard SQL three-valued-logic semantics and standard MongoDB filter
semantics on this value universe.
-/

namespace Eloquent

/-- JS runtime values stored in columns / documents / clause parameters.
`vDate t` models a `Date` by its timestamp, `vOid h` models a Mongo
`ObjectId` by its lower-case 24-hex string. -/
inductive Value where
  | vNull
  | vBool (b : Bool)
  | vInt (n : Int)
  | vStr (s : String)
  | vDate (t : Int)
  | vOid (hex : String)
deriving DecidableEq

open Value

/-- JS `String(v)` on the modelled values (used by the id-coercion helpers). -/
def toStringJS : Value → String
  | vNull => "null"
  | vBool b => if b then "true" else "false"
  | vInt n => toString n
  | vStr s => s
  | vDate t => "Date(" ++ toString t ++ ")"
  | vOid h => h

/-! Char-list based string helpers (kernel-computable replacements for the
library's `String.toLower`, `String.endsWith` and string ordering; they
agree with the JS behaviour on the ASCII strings handled by the layer). -/

def charToLower (c : Char) : Char :=
  if 'A' ≤ c ∧ c ≤ 'Z' then Char.ofNat (c.toNat + 32) else c

def lowerStr (s : String) : String := ⟨s.data.map charToLower⟩

def strEndsWith (s suffix : String) : Bool := suffix.data.isSuffixOf s.data

def charListLt : List Char → List Char → Bool
  | _, [] => false
  | [], _ :: _ => true
  | c :: cs, d :: ds =>
      if c < d then true else if d < c then false else charListLt cs ds

/-- Binary/lexicographic string order (SQL and BSON string comparison). -/
def strLeB (a b : String) : Bool := charListLt a.data b.data || decide (a = b)

/-- JS truthiness of a modelled value. -/
def truthy : Value → Bool
  | vNull => false
  | vBool b => b
  | vInt n => decide (n ≠ 0)
  | vStr s => decide (s ≠ "")
  | vDate _ => true
  | vOid _ => true

/-- A relational row / Mongo document: a total map from field name to value,
with `vNull` standing for an absent field (MongoDB treats a missing field
and an explicit `null` alike in the filter fragment modelled here). -/
def Row : Type := String → Value

/-- The `value` slot of a `WhereClause` (TS `any`): either a single value or
an array of values (`whereIn` / `whereBetween` push arrays). -/
inductive QVal where
  | qv (v : Value)
  | qarr (vs : List Value)
deriving DecidableEq

/-- Mirror of the `WhereClause` interface of src/eloquent/types.ts. -/
structure WhereClause where
  column : String
  operator : String
  value : QVal
  boolean : String
deriving DecidableEq

/-- Mirror of the per-model static metadata consulted by the builder. -/
structure ModelCfg where
  primaryKey : String := "id"
  softDeletes : Bool := false

/-- Builder state relevant to clause compilation (EloquentBuilder fields
`whereClauses`, `includeTrashed`, `appliedSoftDeleteFilter`,
`onlyTrashedFlag`). -/
structure Builder where
  whereClauses : List WhereClause := []
  includeTrashed : Bool := false
  appliedSoftDeleteFilter : Bool := false
  onlyTrashedFlag : Bool := false
deriving DecidableEq

def newBuilder : Builder := {}

/-- `where(column, operator, value)` (three-argument form; the two-argument
form passes operator `"="`).  Mirrors EloquentBuilder.where. -/
def whereOp (b : Builder) (column operator : String) (value : Value) : Builder :=
  { b with whereClauses :=
      b.whereClauses ++ [⟨column, operator, QVal.qv value, "and"⟩] }

/-- `where(column, value)` — two-argument equality form. -/
def whereEq (b : Builder) (column : String) (value : Value) : Builder :=
  whereOp b column "=" value

/-- Mirrors EloquentBuilder.whereIn. -/
def whereIn (b : Builder) (column : String) (values : List Value) : Builder :=
  { b with whereClauses :=
      b.whereClauses ++ [⟨column, "IN", QVal.qarr values, "and"⟩] }

/-- Mirrors EloquentBuilder.whereBetween. -/
def whereBetween (b : Builder) (column : String) (lo hi : Value) : Builder :=
  { b with whereClauses :=
      b.whereClauses ++ [⟨column, "BETWEEN", QVal.qarr [lo, hi], "and"⟩] }

/-- Mirrors EloquentBuilder.whereNull (pushes `=` with value `null`). -/
def whereNull (b : Builder) (column : String) : Builder :=
  { b with whereClauses :=
      b.whereClauses ++ [⟨column, "=", QVal.qv vNull, "and"⟩] }

/-- Mirrors EloquentBuilder.whereNotNull (pushes `!=` with value `null`). -/
def whereNotNull (b : Builder) (column : String) : Builder :=
  { b with whereClauses :=
      b.whereClauses ++ [⟨column, "!=", QVal.qv vNull, "and"⟩] }

/-- Mirrors EloquentBuilder.withTrashed. -/
def withTrashed (b : Builder) : Builder :=
  { b with includeTrashed := true, onlyTrashedFlag := false }

/-- Mirrors EloquentBuilder.withoutTrashed. -/
def withoutTrashed (b : Builder) : Builder :=
  { b with includeTrashed := false, onlyTrashedFlag := false }

/-- Mirrors EloquentBuilder.onlyTrashed: drops previous `deleted_at`
clauses, sets the flags and pushes `deleted_at != null`. -/
def onlyTrashed (b : Builder) : Builder :=
  { b with
      whereClauses :=
        (b.whereClauses.filter (fun w => decide (w.column ≠ "deleted_at")))
          ++ [⟨"deleted_at", "!=", QVal.qv vNull, "and"⟩],
      includeTrashed := true,
      onlyTrashedFlag := true }

/-- The automatic "not deleted" predicate pushed by the soft-delete scope. -/
def notDeletedClause : WhereClause := ⟨"deleted_at", "=", QVal.qv vNull, "and"⟩

/-- The five-fold guard of the soft-delete auto-injection. -/
def shouldInjectSoftDelete (cfg : ModelCfg) (b : Builder) : Bool :=
  !b.appliedSoftDeleteFilter
    && cfg.softDeletes
    && !b.includeTrashed
    && !b.onlyTrashedFlag
    && !(b.whereClauses.any (fun w => decide (w.column = "deleted_at")))

/-- The soft-delete auto-injection shared by `buildWhereClause` (SQL) and
`buildMongoFilter` (Mongo): both guard on the same five conditions and, when
they hold, push `{column deleted_at, operator '=', value null, boolean and}`
and set `appliedSoftDeleteFilter`. -/
def injectSoftDelete (cfg : ModelCfg) (b : Builder) : Builder :=
  if shouldInjectSoftDelete cfg b then
    { b with
        whereClauses := b.whereClauses ++ [notDeletedClause],
        appliedSoftDeleteFilter := true }
  else b

/-! ## SQL side: `buildWhereClause`

The compiler renders parameterized SQL text.  We embed the rendered
condition of each clause as a small AST (`SqlCond`) carrying exactly the
information of the generated fragment, and give it the standard SQL
three-valued-logic semantics collapsed to "evaluates to TRUE" (a WHERE
clause keeps a row only when the condition is TRUE; FALSE and UNKNOWN both
drop it).  Column qualification (`columnQualifier`) only prefixes the table
name and does not change single-table semantics, so it is not modelled.
The `nested` operator (parenthesised groups from sub-builder callbacks) is
not modelled: no claim exercises grouping. -/

inductive SqlCond where
  | inList (col : String) (neg : Bool) (vs : List Value)
  | between (col : String) (neg : Bool) (lo hi : Value)
  | isNull (col : String)
  | isNotNull (col : String)
  | nullOp (col : String) (op : String)
  | cmp (col : String) (op : String) (v : Value)
  | cmpArr (col : String) (op : String) (vs : List Value)
deriving DecidableEq

/-- One clause of `buildWhereClause` (lines 625-661): lower-cased operator,
array/null special cases, otherwise `col OP ?`. -/
def compileSqlClause (w : WhereClause) : SqlCond :=
  let op := lowerStr (if w.operator = "" then "=" else w.operator)
  match w.value with
  | QVal.qarr vs =>
      if op = "in" then SqlCond.inList w.column false vs
      else if op = "not in" then SqlCond.inList w.column true vs
      else if op = "between" then
        SqlCond.between w.column false (vs.getD 0 vNull) (vs.getD 1 vNull)
      else if op = "not between" then
        SqlCond.between w.column true (vs.getD 0 vNull) (vs.getD 1 vNull)
      else SqlCond.cmpArr w.column op vs
  | QVal.qv vNull =>
      if op = "=" then SqlCond.isNull w.column
      else if op = "!=" || op = "<>" then SqlCond.isNotNull w.column
      else SqlCond.nullOp w.column op
  | QVal.qv v => SqlCond.cmp w.column op v

/-- `buildWhereClause` after soft-delete injection: each clause contributes
exactly one rendered condition, joined by the clause connectives (the claims
below only use all-`and` lists, for which the WHERE clause is the
conjunction of the parts). -/
def buildWhereClauseConds (cfg : ModelCfg) (b : Builder) : Builder × List SqlCond :=
  let b' := injectSoftDelete cfg b
  (b', b'.whereClauses.map compileSqlClause)

/-- Typed value comparison used for SQL range operators.  Values stored in a
typed SQL column share a type, so cross-type comparisons do not arise in
well-typed schemas; they are modelled as not-TRUE. -/
def valueLe : Value → Value → Bool
  | vInt a, vInt b => decide (a ≤ b)
  | vStr a, vStr b => strLeB a b
  | vDate a, vDate b => decide (a ≤ b)
  | vBool a, vBool b => !a || b
  | vOid a, vOid b => strLeB a b
  | vNull, vNull => true
  | _, _ => false

def valueLt (a b : Value) : Bool := valueLe a b && decide (a ≠ b)

/-- SQL `a = b` evaluates to TRUE (3VL): both operands non-NULL and equal. -/
def sqlEqTrue (a b : Value) : Bool :=
  decide (a ≠ vNull) && decide (b ≠ vNull) && decide (a = b)

/-- SQL `a <= b` evaluates to TRUE. -/
def sqlLeTrue (a b : Value) : Bool :=
  decide (a ≠ vNull) && decide (b ≠ vNull) && valueLe a b

/-- SQL `a < b` evaluates to TRUE. -/
def sqlLtTrue (a b : Value) : Bool :=
  decide (a ≠ vNull) && decide (b ≠ vNull) && valueLt a b

/-- SQL binary comparison `x OP v` evaluates to TRUE. -/
def sqlCmpTrue (op : String) (x v : Value) : Bool :=
  if op = "=" then sqlEqTrue x v
  else if op = "!=" || op = "<>" then
    decide (x ≠ vNull) && decide (v ≠ vNull) && decide (x ≠ v)
  else if op = "<=" then sqlLeTrue x v
  else if op = ">=" then sqlLeTrue v x
  else if op = "<" then sqlLtTrue x v
  else if op = ">" then sqlLtTrue v x
  else false

/-- A rendered SQL condition evaluates to TRUE on a row. -/
def sqlCondHolds (r : Row) : SqlCond → Bool
  | SqlCond.inList col false vs => vs.any (fun v => sqlEqTrue (r col) v)
  | SqlCond.inList col true vs =>
      decide (r col ≠ vNull)
        && vs.all (fun v => decide (v ≠ vNull) && decide (r col ≠ v))
  | SqlCond.between col false lo hi => sqlLeTrue lo (r col) && sqlLeTrue (r col) hi
  | SqlCond.between col true lo hi => sqlLtTrue (r col) lo || sqlLtTrue hi (r col)
  | SqlCond.isNull col => decide (r col = vNull)
  | SqlCond.isNotNull col => decide (r col ≠ vNull)
  | SqlCond.nullOp _ _ => false
  | SqlCond.cmp col op v => sqlCmpTrue op (r col) v
  | SqlCond.cmpArr _ _ _ => false

/-- Row selected by the compiled WHERE clause (all-`and` clause lists:
conjunction of the rendered parts; an empty list renders no WHERE clause
and selects everything). -/
def sqlSelects (cfg : ModelCfg) (b : Builder) (r : Row) : Bool :=
  ((buildWhereClauseConds cfg b).2).all (sqlCondHolds r)

/-! ## Mongo side: `buildMongoFilter`

The document compiler produces a native filter tree; we embed it as
`MFilter` and give it standard MongoDB matching semantics on the modelled
value universe (equality is structural; `$in` matches membership, including
a `null` element matching a `null`/missing field; range operators compare
only within the same BSON type bracket, with `null` comparing only against
`null`). -/

/-- 24-character hexadecimal string (the ObjectId pattern
`/^[0-9a-fA-F]{24}$/` used by the coercion helpers). -/
def isHex24 (s : String) : Bool :=
  decide (s.data.length = 24)
    && s.data.all (fun c =>
        c.isDigit || (decide ('a' ≤ c) && decide (c ≤ 'f'))
          || (decide ('A' ≤ c) && decide (c ≤ 'F')))

/-- `normalizeField`: the primary key `id` is stored as `_id` in Mongo. -/
def normalizeField (cfg : ModelCfg) (field : String) : String :=
  if field = cfg.primaryKey && cfg.primaryKey = "id" then "_id" else field

/-- `coerceId`: `new ObjectId(String(val))` when that succeeds (i.e. the
string form is 24-hex), otherwise the value unchanged.  ObjectId
construction lower-cases the hex form. -/
def coerceId (v : Value) : Value :=
  match v with
  | vNull => vNull
  | _ => if isHex24 (toStringJS v) then vOid (lowerStr (toStringJS v)) else v

/-- `isIdLikeField`: the normalized field is `_id` or ends in `_id`
case-insensitively (the source tests `/_id$/i`). -/
def isIdLikeField (cfg : ModelCfg) (field : String) : Bool :=
  let f := normalizeField cfg field
  decide (f = "_id") || strEndsWith (lowerStr f) "_id"

/-- `coerceForField`: for id-like fields, 24-hex strings become ObjectId. -/
def coerceForField (cfg : ModelCfg) (field : String) (v : Value) : Value :=
  match v with
  | vNull => vNull
  | vOid h => if isIdLikeField cfg field then vOid h else vOid h
  | _ =>
      if !isIdLikeField cfg field then v
      else if isHex24 (toStringJS v) then vOid (lowerStr (toStringJS v))
      else v

/-- Operator-keyed filter fragments (`$in`, `$nin`, `$ne`, `$gt(e)`,
`$lt(e)`, `$regex` from `like`). -/
inductive MCond where
  | ceq (v : Value)
  | cne (v : Value)
  | cin (vs : List Value)
  | cnin (vs : List Value)
  | cgt (v : Value)
  | cgte (v : Value)
  | clt (v : Value)
  | clte (v : Value)
  | clike (pat : String)
deriving DecidableEq

/-- A Mongo filter document. `frange f lo hi` is `{f: {$gte: lo, $lte: hi}}`
(the `between` rendering). -/
inductive MFilter where
  | femp
  | fcond (field : String) (c : MCond)
  | frange (field : String) (lo hi : Value)
  | fand (fs : List MFilter)
  | fOr (fs : List MFilter)

/-- The value coercion applied to a simple-operator clause value
(lines 1822-1826): id-like fields get `coerceForField`, the `_id` field
gets `coerceId`, other fields are untouched. -/
def coerceSimple (cfg : ModelCfg) (column : String) (v : Value) : Value :=
  if isIdLikeField cfg column then coerceForField cfg column v
  else if normalizeField cfg column = "_id" then coerceId v
  else v

/-- `toFilter` (buildMongoFilter's per-clause translation, lines
1793-1846).  The `nested` operator is not modelled (no claim exercises
grouping); the `like` case renders the `%`→`.*` pattern as `clike`. -/
def toFilter (cfg : ModelCfg) (w : WhereClause) : MFilter :=
  let op := lowerStr (if w.operator = "" then "=" else w.operator)
  let col := normalizeField cfg w.column
  match w.value with
  | QVal.qarr vs =>
      if op = "in" || op = "not in" then
        let arr := vs.map (coerceSimple cfg w.column)
        MFilter.fcond col (if op = "in" then MCond.cin arr else MCond.cnin arr)
      else if op = "between" then
        MFilter.frange col (vs.getD 0 vNull) (vs.getD 1 vNull)
      else if op = "not between" then
        MFilter.fOr [MFilter.fcond col (MCond.clt (vs.getD 0 vNull)),
                     MFilter.fcond col (MCond.cgt (vs.getD 1 vNull))]
      else
        -- simple-operator fallthrough with an array parameter: equality
        -- against an array value, unsatisfiable in this value universe
        MFilter.fcond col (MCond.ceq (vStr "[array]"))
  | QVal.qv v0 =>
      if v0 = vNull && op = "=" then MFilter.fcond col (MCond.ceq vNull)
      else if v0 = vNull && (op = "!=" || op = "<>") then
        MFilter.fcond col (MCond.cne vNull)
      else
        let v := coerceSimple cfg w.column v0
        if op = "=" then MFilter.fcond col (MCond.ceq v)
        else if op = "!=" || op = "<>" then MFilter.fcond col (MCond.cne v)
        else if op = ">" then MFilter.fcond col (MCond.cgt v)
        else if op = ">=" then MFilter.fcond col (MCond.cgte v)
        else if op = "<" then MFilter.fcond col (MCond.clt v)
        else if op = "<=" then MFilter.fcond col (MCond.clte v)
        else if op = "like" then
          MFilter.fcond col (MCond.clike (toStringJS v))
        else MFilter.fcond col (MCond.ceq v)

/-- A produced filter fragment is empty (`Object.keys(f).length === 0`). -/
def mfIsEmpty : MFilter → Bool
  | MFilter.femp => true
  | _ => false

/-- The clauses contributing to `$and` (connective not `or`, fragment
non-empty); restates the single accumulation loop of lines 1848-1853. -/
def mongoAndParts (cfg : ModelCfg) (cs : List WhereClause) : List MFilter :=
  (cs.filter (fun w =>
    decide (w.boolean ≠ "or") && !mfIsEmpty (toFilter cfg w))).map (toFilter cfg)

/-- The clauses contributing to `$or`. -/
def mongoOrParts (cfg : ModelCfg) (cs : List WhereClause) : List MFilter :=
  (cs.filter (fun w =>
    decide (w.boolean = "or") && !mfIsEmpty (toFilter cfg w))).map (toFilter cfg)

/-- Filter assembly of lines 1789 and 1855-1858. -/
def assembleMongoFilter (cfg : ModelCfg) (cs : List WhereClause) : MFilter :=
  if cs.isEmpty then MFilter.femp
  else
    let andParts := mongoAndParts cfg cs
    let orParts := mongoOrParts cfg cs
    if !orParts.isEmpty && !andParts.isEmpty then
      MFilter.fand [MFilter.fand andParts, MFilter.fOr orParts]
    else if !orParts.isEmpty then MFilter.fOr orParts
    else if !andParts.isEmpty then MFilter.fand andParts
    else MFilter.femp

/-- `buildMongoFilter`: soft-delete injection (identical guard to the SQL
side), then filter assembly. -/
def buildMongoFilter (cfg : ModelCfg) (b : Builder) : Builder × MFilter :=
  let b' := injectSoftDelete cfg b
  (b', assembleMongoFilter cfg b'.whereClauses)

/-- Case-insensitive ordered-chunk matching: the semantics of the
unanchored `$regex` produced from a `like` pattern whose `%`s became `.*`
(metacharacters other than the introduced `.*` are treated literally,
which covers the patterns the layer itself produces).  The pattern is kept
in its original `%` form; splitting it at `%` is equivalent to the
source's replace-then-`.*`-split composition. -/
def splitPercent : List Char → List (List Char)
  | [] => [[]]
  | '%' :: rest => [] :: splitPercent rest
  | c :: rest =>
      match splitPercent rest with
      | [] => [[c]]
      | h :: t => (c :: h) :: t

def findChunk (chunk : List Char) : List Char → Option Nat
  | [] => if chunk.isEmpty then some 0 else none
  | c :: rest =>
      if chunk.isPrefixOf (c :: rest) then some 0
      else (findChunk chunk rest).map (· + 1)

def chunksMatch : List (List Char) → List Char → Bool
  | [], _ => true
  | c :: cs, s =>
      match findChunk c s with
      | none => false
      | some i => chunksMatch cs (s.drop (i + c.length))

def likeMatch (pat : String) (s : String) : Bool :=
  chunksMatch (splitPercent (lowerStr pat).data) (lowerStr s).data

/-- MongoDB cond semantics on a document field value. -/
def mCondHolds (x : Value) : MCond → Bool
  | MCond.ceq v => decide (x = v)
  | MCond.cne v => decide (x ≠ v)
  | MCond.cin vs => vs.any (fun v => decide (x = v))
  | MCond.cnin vs => !vs.any (fun v => decide (x = v))
  | MCond.cgt v => valueLt v x
  | MCond.cgte v => valueLe v x
  | MCond.clt v => valueLt x v
  | MCond.clte v => valueLe x v
  | MCond.clike pat => likeMatch pat (toStringJS x)

mutual

/-- MongoDB filter matching semantics. -/
def mongoMatch (r : Row) : MFilter → Bool
  | MFilter.femp => true
  | MFilter.fcond f c => mCondHolds (r f) c
  | MFilter.frange f lo hi => valueLe lo (r f) && valueLe (r f) hi
  | MFilter.fand fs => mongoMatchAll r fs
  | MFilter.fOr fs => mongoMatchAny r fs

/-- `$and` over a list of sub-filters. -/
def mongoMatchAll (r : Row) : List MFilter → Bool
  | [] => true
  | f :: fs => mongoMatch r f && mongoMatchAll r fs

/-- `$or` over a list of sub-filters. -/
def mongoMatchAny (r : Row) : List MFilter → Bool
  | [] => false
  | f :: fs => mongoMatch r f || mongoMatchAny r fs

end

/-- Document selected by the compiled Mongo filter. -/
def mongoSelects (cfg : ModelCfg) (b : Builder) (r : Row) : Bool :=
  mongoMatch r (buildMongoFilter cfg b).2

/-! ## C1: predicate equivalence of the two compilers -/

/-- The clause fragment on which the two compilers agree: `and`-connected
clauses from the equality (`where`/`whereNull`), `whereNotNull`, `whereIn`
(null-free list) and `whereBetween` (non-null bounds) methods, on columns
that are not id-like (so that no identifier coercion is involved). -/
def safeClause (cfg : ModelCfg) (w : WhereClause) : Bool :=
  let op := lowerStr (if w.operator = "" then "=" else w.operator)
  decide (w.boolean = "and") && !isIdLikeField cfg w.column &&
    match w.value with
    | QVal.qv v =>
        decide (op = "=")
          || ((decide (op = "!=") || decide (op = "<>")) && decide (v = vNull))
    | QVal.qarr vs =>
        (decide (op = "in") && vs.all (fun v => decide (v ≠ vNull)))
          || (decide (op = "between") && decide (vs.length = 2)
                && vs.all (fun v => decide (v ≠ vNull)))

lemma normalize_of_not_idlike (cfg : ModelCfg) (col : String)
    (h : isIdLikeField cfg col = false) : normalizeField cfg col = col := by
  by_cases hc : col = cfg.primaryKey ∧ cfg.primaryKey = "id"
  · exfalso
    have : normalizeField cfg col = "_id" := by
      simp [normalizeField, hc.1, hc.2]
    simp [isIdLikeField, this] at h
  · simp [normalizeField]
    intro h1 h2
    exact absurd ⟨h1, h2⟩ hc

lemma coerceSimple_of_not_idlike (cfg : ModelCfg) (col : String) (v : Value)
    (h : isIdLikeField cfg col = false) : coerceSimple cfg col v = v := by
  have hn : normalizeField cfg col = col := normalize_of_not_idlike cfg col h
  have hne : normalizeField cfg col ≠ "_id" := by
    intro he
    simp [isIdLikeField, he] at h
  simp [coerceSimple, h, hne]

lemma valueLe_null_right (a : Value) (h : a ≠ vNull) : valueLe a vNull = false := by
  cases a <;> simp_all [valueLe]

lemma valueLe_null_left (a : Value) (h : a ≠ vNull) : valueLe vNull a = false := by
  cases a <;> simp_all [valueLe]

lemma sqlLeTrue_left (a x : Value) (h : a ≠ vNull) :
    sqlLeTrue a x = valueLe a x := by
  by_cases hx : x = vNull
  · subst hx; simp [sqlLeTrue, valueLe_null_right a h]
  · simp [sqlLeTrue, h, hx]

lemma sqlLeTrue_right (a x : Value) (h : a ≠ vNull) :
    sqlLeTrue x a = valueLe x a := by
  by_cases hx : x = vNull
  · subst hx; simp [sqlLeTrue, valueLe_null_left a h]
  · simp [sqlLeTrue, h, hx]

lemma sqlEqTrue_of_ne_null (x v : Value) (h : v ≠ vNull) :
    sqlEqTrue x v = decide (x = v) := by
  by_cases hx : x = v
  · subst hx; simp [sqlEqTrue, h]
  · simp [sqlEqTrue, hx]

lemma mongoMatchAll_eq_all (r : Row) (fs : List MFilter) :
    mongoMatchAll r fs = fs.all (fun f => mongoMatch r f) := by
  induction fs with
  | nil => rfl
  | cons f fs ih => simp [mongoMatchAll, ih]

lemma all_map_general {α β : Type} (l : List α) (f : α → β) (p : β → Bool) :
    (l.map f).all p = l.all (fun a => p (f a)) := by
  induction l with
  | nil => rfl
  | cons a t ih => simp [ih]

lemma list_all_congr {α : Type} (p q : α → Bool) :
    ∀ l : List α, (∀ a, a ∈ l → p a = q a) → l.all p = l.all q
  | [], _ => rfl
  | x :: xs, h => by
      have hx : p x = q x := h x (List.mem_cons_self x xs)
      have ht : xs.all p = xs.all q :=
        list_all_congr p q xs (fun y hy => h y (List.mem_cons_of_mem x hy))
      simp only [List.all_cons, hx, ht]

lemma map_coerceSimple_eq (cfg : ModelCfg) (col : String)
    (h : isIdLikeField cfg col = false) (vs : List Value) :
    vs.map (coerceSimple cfg col) = vs := by
  induction vs with
  | nil => rfl
  | cons a t ih => simp [coerceSimple_of_not_idlike cfg col a h, ih]

lemma any_sqlEq_of_nonnull (x : Value) (vs : List Value)
    (h : ∀ v ∈ vs, v ≠ vNull) :
    vs.any (fun v => sqlEqTrue x v) = vs.any (fun v => decide (x = v)) := by
  induction vs with
  | nil => rfl
  | cons a t ih =>
      simp only [List.any_cons, sqlEqTrue_of_ne_null x a (h a (by simp)),
                 ih (fun v hv => h v (by simp [hv]))]

lemma toFilter_not_empty (cfg : ModelCfg) (w : WhereClause) :
    mfIsEmpty (toFilter cfg w) = false := by
  obtain ⟨col, oper, v, bl⟩ := w
  cases v <;> simp only [toFilter] <;> (repeat' split) <;> rfl

/-- Per-clause agreement of the SQL rendering and the Mongo fragment on the
safe fragment. -/
lemma safe_clause_equiv (cfg : ModelCfg) (w : WhereClause) (r : Row)
    (hs : safeClause cfg w = true) :
    mongoMatch r (toFilter cfg w) = sqlCondHolds r (compileSqlClause w) := by
  obtain ⟨col, oper, qval, bl⟩ := w
  simp only [safeClause, Bool.and_eq_true, decide_eq_true_eq] at hs
  obtain ⟨⟨hbl, hid⟩, hv⟩ := hs
  have hid' : isIdLikeField cfg col = false := by
    cases h : isIdLikeField cfg col
    · rfl
    · simp [h] at hid
  have hn : normalizeField cfg col = col := normalize_of_not_idlike cfg col hid'
  cases qval with
  | qv v =>
      simp only [Bool.or_eq_true, Bool.and_eq_true, decide_eq_true_eq] at hv
      rcases hv with hop | ⟨hop, hvn⟩
      · -- equality operator
        by_cases hvn : v = vNull
        · subst hvn
          simp [toFilter, compileSqlClause, hop, hn, mongoMatch, mCondHolds,
                sqlCondHolds]
        · simp only [toFilter, compileSqlClause, hop, hn, hvn]
          simp [mongoMatch, mCondHolds, sqlCondHolds, sqlCmpTrue,
                coerceSimple_of_not_idlike cfg col v hid', hvn,
                sqlEqTrue_of_ne_null (r col) v hvn]
      · -- whereNotNull: `!=` / `<>` with value null
        subst hvn
        rcases hop with hop | hop <;>
          simp [toFilter, compileSqlClause, hop, hn, mongoMatch, mCondHolds,
                sqlCondHolds]
  | qarr vs =>
      simp only [Bool.or_eq_true, Bool.and_eq_true, decide_eq_true_eq,
                 List.all_eq_true] at hv
      rcases hv with ⟨hop, hnn⟩ | ⟨⟨hop, hlen⟩, hnn⟩
      · -- whereIn with a null-free list
        have hnn' : ∀ v ∈ vs, v ≠ vNull := fun v hv => by simpa using hnn v hv
        have hmap := map_coerceSimple_eq cfg col hid' vs
        have hm : mongoMatch r (toFilter cfg ⟨col, oper, QVal.qarr vs, bl⟩)
            = mCondHolds (r col) (MCond.cin vs) := by
          simp [toFilter, hop, hn, hmap, mongoMatch]
        have hs : compileSqlClause ⟨col, oper, QVal.qarr vs, bl⟩
            = SqlCond.inList col false vs := by
          simp [compileSqlClause, hop]
        rw [hm, hs]
        simp only [mCondHolds, sqlCondHolds]
        exact (any_sqlEq_of_nonnull (r col) vs hnn').symm
      · -- whereBetween with non-null bounds
        obtain ⟨a, b, rfl⟩ : ∃ a b, vs = [a, b] := by
          match vs, hlen with
          | [a, b], _ => exact ⟨a, b, rfl⟩
        have ha : a ≠ vNull := by simpa using hnn a (by simp)
        have hb : b ≠ vNull := by simpa using hnn b (by simp)
        have hm : toFilter cfg ⟨col, oper, QVal.qarr [a, b], bl⟩
            = MFilter.frange col a b := by
          simp [toFilter, hop, hn]
        have hs : compileSqlClause ⟨col, oper, QVal.qarr [a, b], bl⟩
            = SqlCond.between col false a b := by
          simp [compileSqlClause, hop]
        rw [hm, hs]
        simp only [mongoMatch, sqlCondHolds]
        rw [sqlLeTrue_left a (r col) ha, sqlLeTrue_right b (r col) hb]

lemma safeClause_boolean_and (cfg : ModelCfg) (w : WhereClause)
    (hs : safeClause cfg w = true) : w.boolean = "and" := by
  simp only [safeClause, Bool.and_eq_true, decide_eq_true_eq] at hs
  exact hs.1.1

/-- List-level agreement: on all-safe clause lists the assembled Mongo
filter matches exactly the rows on which every rendered SQL condition is
TRUE. -/
lemma assemble_equiv (cfg : ModelCfg) (cs : List WhereClause) (r : Row)
    (h : ∀ w ∈ cs, safeClause cfg w = true) :
    mongoMatch r (assembleMongoFilter cfg cs)
      = cs.all (fun w => sqlCondHolds r (compileSqlClause w)) := by
  cases cs with
  | nil => rfl
  | cons c cs' =>
      have hor : mongoOrParts cfg (c :: cs') = [] := by
        apply List.eq_nil_iff_forall_not_mem.mpr
        intro f hf
        simp only [mongoOrParts, List.mem_map, List.mem_filter,
                   Bool.and_eq_true, decide_eq_true_eq] at hf
        obtain ⟨w, ⟨hw, hbw, _⟩, _⟩ := hf
        exact absurd (safeClause_boolean_and cfg w (h w hw)) (by simp [hbw])
      have hand : mongoAndParts cfg (c :: cs') = (c :: cs').map (toFilter cfg) := by
        unfold mongoAndParts
        congr 1
        apply List.filter_eq_self.mpr
        intro w hw
        have hb := safeClause_boolean_and cfg w (h w hw)
        simp [hb, toFilter_not_empty cfg w]
      have hassem : assembleMongoFilter cfg (c :: cs')
          = MFilter.fand ((c :: cs').map (toFilter cfg)) := by
        unfold assembleMongoFilter
        rw [if_neg (by simp), hor, hand]
        simp
      rw [hassem,
          show mongoMatch r (MFilter.fand ((c :: cs').map (toFilter cfg)))
            = mongoMatchAll r ((c :: cs').map (toFilter cfg)) from rfl,
          mongoMatchAll_eq_all, all_map_general]
      exact list_all_congr _ _ _
        (fun w hw => safe_clause_equiv cfg w r (h w hw))

/-- The soft-delete clause injected by both compilers is itself in the safe
fragment. -/
lemma injected_clauses_safe (cfg : ModelCfg) (b : Builder)
    (h : ∀ w ∈ b.whereClauses, safeClause cfg w = true) :
    ∀ w ∈ (injectSoftDelete cfg b).whereClauses, safeClause cfg w = true := by
  have hdel : safeClause cfg ⟨"deleted_at", "=", QVal.qv vNull, "and"⟩ = true := by
    have hpk : normalizeField cfg "deleted_at" = "deleted_at" := by
      unfold normalizeField
      split
      case isTrue hc =>
        exfalso
        rw [Bool.and_eq_true, decide_eq_true_eq, decide_eq_true_eq] at hc
        have h1 := hc.1
        rw [hc.2] at h1
        exact absurd h1 (by decide)
      case isFalse => rfl
    have hidl : isIdLikeField cfg "deleted_at" = false := by
      simp only [isIdLikeField, hpk]
      decide
    simp only [safeClause]
    rw [hidl]
    decide
  unfold injectSoftDelete
  split
  · intro w hw
    simp only [List.mem_append, List.mem_singleton] at hw
    rcases hw with hw | rfl
    · exact h w hw
    · exact hdel
  · exact h

/-- C1 (corrected): the claim fails as stated — a `whereIn` list containing
`null` selects differently on the two backends.  Both stores hold the same
single record whose `tag` field is null; the SQL compiler renders
`tag IN (NULL)`, which is never TRUE in SQL three-valued logic, while the
document compiler renders `{tag: {$in: [null]}}`, which matches the
null-valued document. -/
theorem c1_counterexample :
    sqlSelects ⟨"id", false⟩ (whereIn newBuilder "tag" [vNull]) (fun _ => vNull)
        = false
      ∧ mongoSelects ⟨"id", false⟩ (whereIn newBuilder "tag" [vNull])
          (fun _ => vNull) = true := by
  constructor <;> decide

/-- C1 (amended): for every clause list built from the equality, IN,
BETWEEN and NULL predicate methods with `and` connectives — restricted to
non-id-like columns, null-free IN lists and non-null BETWEEN bounds — the
compiled SQL WHERE clause and the compiled document filter select the
identical logical subset of backing stores holding matching content. -/
theorem c1_predicate_equivalence (cfg : ModelCfg) (b : Builder) (r : Row)
    (h : ∀ w ∈ b.whereClauses, safeClause cfg w = true) :
    sqlSelects cfg b r = mongoSelects cfg b r := by
  have h' := injected_clauses_safe cfg b h
  unfold sqlSelects mongoSelects buildWhereClauseConds buildMongoFilter
  simp only
  rw [assemble_equiv cfg _ r h', all_map_general]

/-- Witness for C1: a two-clause equality + IN query over a concrete row. -/
theorem c1_predicate_equivalence_witness :
    sqlSelects ⟨"id", false⟩
        (whereIn (whereEq newBuilder "status" (vStr "active")) "n"
          [vInt 1, vInt 2])
        (fun c => if c = "status" then vStr "active" else vInt 2)
      = mongoSelects ⟨"id", false⟩
        (whereIn (whereEq newBuilder "status" (vStr "active")) "n"
          [vInt 1, vInt 2])
        (fun c => if c = "status" then vStr "active" else vInt 2) :=
  c1_predicate_equivalence ⟨"id", false⟩
    (whereIn (whereEq newBuilder "status" (vStr "active")) "n" [vInt 1, vInt 2])
    (fun c => if c = "status" then vStr "active" else vInt 2)
    (by decide)

/-! ## C4 / C5: soft-delete scoping -/

lemma normalizeField_deleted_at (cfg : ModelCfg) :
    normalizeField cfg "deleted_at" = "deleted_at" := by
  unfold normalizeField
  split
  case isTrue hc =>
    exfalso
    rw [Bool.and_eq_true, decide_eq_true_eq, decide_eq_true_eq] at hc
    have h1 := hc.1
    rw [hc.2] at h1
    exact absurd h1 (by decide)
  case isFalse => rfl

lemma isIdLike_deleted_at (cfg : ModelCfg) :
    isIdLikeField cfg "deleted_at" = false := by
  simp only [isIdLikeField, normalizeField_deleted_at]
  decide

lemma compile_notDeleted_sql :
    compileSqlClause ⟨"deleted_at", "=", QVal.qv vNull, "and"⟩
      = SqlCond.isNull "deleted_at" := by decide

lemma compile_onlyTrashed_sql :
    compileSqlClause ⟨"deleted_at", "!=", QVal.qv vNull, "and"⟩
      = SqlCond.isNotNull "deleted_at" := by decide

lemma toFilter_notDeleted (cfg : ModelCfg) :
    toFilter cfg ⟨"deleted_at", "=", QVal.qv vNull, "and"⟩
      = MFilter.fcond "deleted_at" (MCond.ceq vNull) := by
  simp [toFilter, normalizeField_deleted_at,
        show lowerStr "=" = "=" from by decide]

lemma toFilter_onlyTrashed (cfg : ModelCfg) :
    toFilter cfg ⟨"deleted_at", "!=", QVal.qv vNull, "and"⟩
      = MFilter.fcond "deleted_at" (MCond.cne vNull) := by
  simp [toFilter, normalizeField_deleted_at,
        show lowerStr "!=" = "!=" from by decide,
        show lowerStr "!=" ≠ "=" from by decide]

/-- C4 (confirmed): with soft deletes declared, a default builder's compiled
filter (both backends) selects exactly the rows whose `deleted_at` is null
— so a soft-deleted entity (whose `deleted_at` was set to a date) is
excluded; a `withTrashed` builder selects every row; an `onlyTrashed`
builder selects exactly the soft-deleted rows. -/
theorem c4_soft_delete_scoping (cfg : ModelCfg) (hsd : cfg.softDeletes = true)
    (r : Row) :
    (sqlSelects cfg newBuilder r = decide (r "deleted_at" = vNull)
      ∧ mongoSelects cfg newBuilder r = decide (r "deleted_at" = vNull))
    ∧ (sqlSelects cfg (withTrashed newBuilder) r = true
      ∧ mongoSelects cfg (withTrashed newBuilder) r = true)
    ∧ (sqlSelects cfg (onlyTrashed newBuilder) r
          = !decide (r "deleted_at" = vNull)
      ∧ mongoSelects cfg (onlyTrashed newBuilder) r
          = !decide (r "deleted_at" = vNull)) := by
  have hinj : injectSoftDelete cfg newBuilder
      = { whereClauses := [⟨"deleted_at", "=", QVal.qv vNull, "and"⟩],
          includeTrashed := false,
          appliedSoftDeleteFilter := true, onlyTrashedFlag := false } := by
    simp [injectSoftDelete, shouldInjectSoftDelete, newBuilder, hsd,
          notDeletedClause]
  have hwt : injectSoftDelete cfg (withTrashed newBuilder)
      = { whereClauses := [], includeTrashed := true,
          appliedSoftDeleteFilter := false, onlyTrashedFlag := false } := by
    simp [injectSoftDelete, shouldInjectSoftDelete, withTrashed, newBuilder]
  have hot : injectSoftDelete cfg (onlyTrashed newBuilder)
      = { whereClauses := [⟨"deleted_at", "!=", QVal.qv vNull, "and"⟩],
          includeTrashed := true,
          appliedSoftDeleteFilter := false, onlyTrashedFlag := true } := by
    simp [injectSoftDelete, shouldInjectSoftDelete, onlyTrashed, newBuilder]
  refine ⟨⟨?_, ?_⟩, ⟨?_, ?_⟩, ?_, ?_⟩
  · simp [sqlSelects, buildWhereClauseConds, hinj, compile_notDeleted_sql,
          sqlCondHolds]
  · simp [mongoSelects, buildMongoFilter, hinj, assembleMongoFilter,
          mongoAndParts, mongoOrParts, toFilter_notDeleted,
          mfIsEmpty, mongoMatch, mongoMatchAll, mCondHolds]
  · simp [sqlSelects, buildWhereClauseConds, hwt]
  · simp [mongoSelects, buildMongoFilter, hwt, assembleMongoFilter,
          mongoMatch]
  · simp [sqlSelects, buildWhereClauseConds, hot,
          compile_onlyTrashed_sql, sqlCondHolds]
  · simp [mongoSelects, buildMongoFilter, hot,
          assembleMongoFilter, mongoAndParts, mongoOrParts,
          toFilter_onlyTrashed, mfIsEmpty, mongoMatch, mongoMatchAll,
          mCondHolds]

/-- Witness for C4 at a concrete soft-deleted row. -/
theorem c4_soft_delete_scoping_witness :
    sqlSelects ⟨"id", true⟩ newBuilder
        (fun c => if c = "deleted_at" then vDate 5 else vInt 1) = false
      ∧ mongoSelects ⟨"id", true⟩ (withTrashed newBuilder)
          (fun c => if c = "deleted_at" then vDate 5 else vInt 1) = true
      ∧ sqlSelects ⟨"id", true⟩ (onlyTrashed newBuilder)
          (fun c => if c = "deleted_at" then vDate 5 else vInt 1) = true := by
  obtain ⟨⟨h1, _⟩, ⟨_, h4⟩, h5, _⟩ :=
    c4_soft_delete_scoping ⟨"id", true⟩ rfl
      (fun c => if c = "deleted_at" then vDate 5 else vInt 1)
  exact ⟨by rw [h1]; decide, by rw [h4], by rw [h5]; decide⟩

/-- The soft-delete injection is idempotent on builder state. -/
lemma injectSoftDelete_idem (cfg : ModelCfg) (b : Builder) :
    injectSoftDelete cfg (injectSoftDelete cfg b) = injectSoftDelete cfg b := by
  have hg : shouldInjectSoftDelete cfg (injectSoftDelete cfg b) = false := by
    by_cases h : shouldInjectSoftDelete cfg b = true
    · rw [injectSoftDelete, if_pos h]
      simp [shouldInjectSoftDelete]
    · rw [injectSoftDelete, if_neg h]
      simpa using h
  conv_lhs => rw [injectSoftDelete]
  rw [hg]
  simp

lemma injectSoftDelete_iterate (cfg : ModelCfg) (b : Builder) (n : Nat) :
    (injectSoftDelete cfg)^[n + 1] b = injectSoftDelete cfg b := by
  induction n with
  | zero => rfl
  | succ n ih =>
      rw [Function.iterate_succ_apply', ih, injectSoftDelete_idem]

/-- C5 (corrected): the claim fails as stated — on a default-mode builder
over a soft-deletable type that already carries a user clause on
`deleted_at` (here `whereNotNull('deleted_at')`), the automatic "not
deleted" predicate is appended zero times, not exactly once, no matter how
many terminal compilations run. -/
theorem c5_counterexample :
    injectSoftDelete ⟨"id", true⟩
        (injectSoftDelete ⟨"id", true⟩ (whereNotNull newBuilder "deleted_at"))
      = whereNotNull newBuilder "deleted_at"
    ∧ (whereNotNull newBuilder "deleted_at").includeTrashed = false
    ∧ (whereNotNull newBuilder "deleted_at").onlyTrashedFlag = false
    ∧ (whereNotNull newBuilder "deleted_at").whereClauses.count notDeletedClause
        = 0 := by
  refine ⟨by decide, rfl, rfl, by decide⟩

/-- C5 (amended): on a fresh default-mode builder over a soft-deletable
type the automatic predicate is appended at most once per builder instance:
exactly once — by the first terminal compilation, with every further
compilation leaving the state unchanged — when no `deleted_at` clause is
already present, and zero times when the clause list already mentions
`deleted_at`. -/
theorem c5_soft_delete_injected_once (cfg : ModelCfg) (b : Builder) (n : Nat)
    (hsd : cfg.softDeletes = true)
    (hinc : b.includeTrashed = false) (honly : b.onlyTrashedFlag = false)
    (happ : b.appliedSoftDeleteFilter = false) :
    ((injectSoftDelete cfg)^[n + 1] b = injectSoftDelete cfg b)
    ∧ (b.whereClauses.any (fun w => decide (w.column = "deleted_at")) = false →
        (injectSoftDelete cfg b).whereClauses
          = b.whereClauses ++ [notDeletedClause])
    ∧ (b.whereClauses.any (fun w => decide (w.column = "deleted_at")) = true →
        injectSoftDelete cfg b = b) := by
  refine ⟨injectSoftDelete_iterate cfg b n, ?_, ?_⟩
  · intro hno
    rw [injectSoftDelete, if_pos ?_]
    simp [shouldInjectSoftDelete, hsd, hinc, honly, happ, hno]
  · intro hyes
    rw [injectSoftDelete, if_neg ?_]
    simp [shouldInjectSoftDelete, hyes]

/-- Witness for C5 on a fresh builder with one unrelated clause. -/
theorem c5_soft_delete_injected_once_witness :
    ((injectSoftDelete ⟨"id", true⟩)^[3] (whereEq newBuilder "status" (vStr "a"))
        = injectSoftDelete ⟨"id", true⟩ (whereEq newBuilder "status" (vStr "a")))
    ∧ (injectSoftDelete ⟨"id", true⟩
          (whereEq newBuilder "status" (vStr "a"))).whereClauses
        = (whereEq newBuilder "status" (vStr "a")).whereClauses
            ++ [notDeletedClause] := by
  obtain ⟨h1, h2, _⟩ :=
    c5_soft_delete_injected_once ⟨"id", true⟩
      (whereEq newBuilder "status" (vStr "a")) 2 rfl rfl rfl rfl
  exact ⟨h1, h2 (by decide)⟩

/-! ## C2: pagination -/

/-- Mirror of the `pagination` object of `QueryResult`. -/
structure PageResult (α : Type) where
  data : List α
  currentPage : Int
  perPage : Int
  total : Int
  lastPage : Int
deriving DecidableEq

/-- `paginate(perPage, page)` (EloquentBuilder lines 396-413).  The inputs
are JS numbers; on the integer inputs modelled here `Number.isFinite` holds
and `Math.floor` is the identity, so the coercions reduce to `max 1`.
The limited fetch applies `LIMIT pp OFFSET offset` (Mongo: skip/limit) to
the filtered row list, and the separate total-count query counts the same
filtered list without limit/offset. -/
def paginate {α : Type} (rows : List α) (perPage page : Int) : PageResult α :=
  let pp : Int := max 1 perPage
  let pg : Int := max 1 page
  let offset : Int := (pg - 1) * pp
  let data := (rows.drop offset.toNat).take pp.toNat
  { data := data
    currentPage := pg
    perPage := pp
    total := (rows.length : Int)
    -- Math.ceil(total / pp) for a non-negative total and positive pp
    lastPage := max 1 (((rows.length + pp.toNat - 1) / pp.toNat : Nat) : Int) }

/-- C2 (corrected): the claim's upper clamp does not exist — `paginate`
only floors `perPage` at 1; `paginate(1000, 1)` runs with perPage 1000,
not 100. -/
theorem c2_counterexample :
    (paginate ([] : List Unit) 1000 1).perPage = 1000
      ∧ ¬((paginate ([] : List Unit) 1000 1).perPage ≤ 100) := by
  constructor <;> decide

lemma ceil_mul_ge (len pn : Nat) (hpn : 1 ≤ pn) :
    len ≤ ((len + pn - 1) / pn) * pn := by
  have hdm := Nat.div_add_mod (len + pn - 1) pn
  have hlt : (len + pn - 1) % pn < pn := Nat.mod_lt _ hpn
  rw [Nat.mul_comm]
  omega

/-- C2 (amended): `paginate(perPage, page)` clamps `perPage` to at least 1
(there is no upper clamp at 100) and `page` to at least 1; the limited
fetch uses `offset = (page-1)*perPage` over the clamped values; the
returned pagination satisfies `lastPage = max 1 ⌈total/perPage⌉`; and
requesting a page past the last one returns an empty data array. -/
theorem c2_pagination {α : Type} (rows : List α) (perPage page : Int) :
    (paginate rows perPage page).perPage = max 1 perPage
    ∧ (paginate rows perPage page).currentPage = max 1 page
    ∧ (paginate rows perPage page).total = (rows.length : Int)
    ∧ (paginate rows perPage page).data
        = (rows.drop (((max 1 page - 1) * max 1 perPage).toNat)).take
            (max 1 perPage).toNat
    ∧ (paginate rows perPage page).lastPage
        = max 1 (((rows.length + (max 1 perPage).toNat - 1)
            / (max 1 perPage).toNat : Nat) : Int)
    ∧ ((paginate rows perPage page).lastPage
          < (paginate rows perPage page).currentPage →
        (paginate rows perPage page).data = []) := by
  refine ⟨rfl, rfl, rfl, rfl, rfl, ?_⟩
  intro hpast
  simp only [paginate] at hpast ⊢
  set pp : Int := max 1 perPage with hpp
  set pg : Int := max 1 page with hpg
  set pn : Nat := pp.toNat with hpn
  have hpp1 : 1 ≤ pp := le_max_left _ _
  have hpg1 : 1 ≤ pg := le_max_left _ _
  have hpn1 : 1 ≤ pn := by
    rw [hpn]
    omega
  set q : Nat := (rows.length + pn - 1) / pn with hq
  have hlen : rows.length ≤ q * pn := ceil_mul_ge rows.length pn hpn1
  have hql : (q : Int) ≤ max 1 (q : Int) := le_max_right _ _
  have hgq : (q : Int) < pg := lt_of_le_of_lt hql hpast
  have hgq' : (q : Int) ≤ pg - 1 := by omega
  have hoff : (rows.length : Int) ≤ (pg - 1) * pp := by
    calc (rows.length : Int) ≤ (q : Int) * (pn : Int) := by
          exact_mod_cast hlen
      _ ≤ (pg - 1) * (pn : Int) := by
          apply mul_le_mul_of_nonneg_right hgq'
          omega
      _ = (pg - 1) * pp := by
          congr 1
          rw [hpn]
          omega
  have hoff' : rows.length ≤ ((pg - 1) * pp).toNat := by omega
  rw [List.drop_eq_nil_of_le hoff']
  simp

/-- Witness for C2: the P3 scenario — 47 rows, perPage 10, page 6 is past
lastPage 5 and returns an empty page. -/
theorem c2_pagination_witness :
    (paginate (List.replicate 47 ()) 10 6).lastPage = 5
      ∧ (paginate (List.replicate 47 ()) 10 6).data = [] := by
  obtain ⟨_, _, _, _, h5, h6⟩ := c2_pagination (List.replicate 47 ()) 10 6
  refine ⟨by rw [h5]; decide, ?_⟩
  apply h6
  rw [h5]
  decide

/-! ## C3: unknown relations in has-conditions

`buildHasConditionsSQL` (SQL) renders each has-condition as a correlated
`(SELECT COUNT(*) ...) <op> ?` subquery and *skips* conditions whose
relation has no descriptor (`if (!relMeta) return; // skip silently`).
`applyHasConditionsMongo` post-filters the fetched documents and treats a
missing descriptor as a failed condition (`if (!relMeta) { allOk = false;
break; }`).  The per-candidate related-row/document counts performed by the
stores (including constraint sub-builders and nested has-conditions, which
only feed into those counts) are abstracted by a count oracle; the
descriptor lookup `getRelationship` is abstracted by an environment
`String → Option RelKind`. -/

inductive RelKind where
  | hasOne | hasMany | belongsTo | belongsToMany | morphOne | morphMany
deriving DecidableEq

/-- A pushed has-condition (`whereHas` applies defaults `>=` / 1,
`whereDoesntHave` pushes `=` / 0). -/
structure HasCond where
  relation : String
  operator : String
  count : Int
deriving DecidableEq

/-- The comparator switch shared by both backends (lines 885-893 and
972-980; the SQL comparator `(subquery) op ?` has the same meaning). -/
def cmpCount (op : String) (actual expected : Int) : Bool :=
  if op = ">" then decide (actual > expected)
  else if op = ">=" then decide (actual ≥ expected)
  else if op = "<" then decide (actual < expected)
  else if op = "<=" then decide (actual ≤ expected)
  else if op = "=" || op = "==" then decide (actual = expected)
  else if op = "!=" || op = "<>" then decide (actual ≠ expected)
  else decide (actual ≥ expected)

/-- The has-conditions that survive SQL compilation: unknown relations are
skipped silently (line 713). -/
def keptHasConditionsSQL (env : String → Option RelKind) (conds : List HasCond) :
    List HasCond :=
  conds.filter (fun c => (env c.relation).isSome)

/-- A row satisfies the AND-appended compiled has-subqueries; `relCount c r`
is the count returned by the correlated subquery of condition `c` for the
candidate row `r`. -/
def sqlHasSelects (env : String → Option RelKind)
    (relCount : HasCond → Row → Int) (conds : List HasCond) (r : Row) : Bool :=
  (keptHasConditionsSQL env conds).all
    (fun c => cmpCount c.operator (relCount c r) c.count)

/-- The rows of the candidate set kept by the SQL query's has-subqueries. -/
def sqlHasFilter (env : String → Option RelKind)
    (relCount : HasCond → Row → Int) (conds : List HasCond) (docs : List Row) :
    List Row :=
  docs.filter (sqlHasSelects env relCount conds)

/-- `applyHasConditionsMongo` (lines 797-986): early return on an empty
condition or document list, then the per-document `allOk` loop, where a
missing descriptor fails the condition and drops the document. -/
def applyHasConditionsMongo (env : String → Option RelKind)
    (docCount : HasCond → Row → Int) (conds : List HasCond) (docs : List Row) :
    List Row :=
  if conds.isEmpty || docs.isEmpty then docs
  else docs.filter (fun d => conds.all (fun c =>
    match env c.relation with
    | none => false
    | some _ => cmpCount c.operator (docCount c d) c.count))

/-- C3 (corrected): the claim fails as stated.  With a single has-condition
on a relation that has no descriptor, the SQL backend skips the condition
(the result set equals that of the query without the condition), but the
document backend fails the condition for every candidate and returns the
empty set — the two backends do not return the same result set. -/
theorem c3_counterexample :
    sqlHasFilter (fun _ => none) (fun _ _ => 0) [⟨"friends", ">=", 1⟩]
        [fun _ => vInt 1] = [fun _ => vInt 1]
    ∧ sqlHasFilter (fun _ => none) (fun _ _ => 0) []
        [fun _ => vInt 1] = [fun _ => vInt 1]
    ∧ applyHasConditionsMongo (fun _ => none) (fun _ _ => 0)
        [⟨"friends", ">=", 1⟩] [fun _ => vInt 1] = []
    ∧ applyHasConditionsMongo (fun _ => none) (fun _ _ => 0) []
        [fun _ => vInt 1] = [fun _ => vInt 1] := by
  refine ⟨rfl, rfl, ?_, rfl⟩
  rfl

/-- C3 (amended): a has-condition whose relation name has no descriptor is
skipped silently on the SQL backend — it contributes nothing to the result
filter, so the query returns the same result set as the query without that
condition — while on the document backend it fails for every candidate, so
the query returns the empty result set.  Neither backend throws. -/
theorem c3_unknown_relation_has_condition (env : String → Option RelKind)
    (relCount docCount : HasCond → Row → Int)
    (pre post : List HasCond) (c : HasCond) (docs : List Row)
    (hunk : env c.relation = none) :
    (∀ r : Row, sqlHasSelects env relCount (pre ++ c :: post) r
        = sqlHasSelects env relCount (pre ++ post) r)
    ∧ (sqlHasFilter env relCount (pre ++ c :: post) docs
        = sqlHasFilter env relCount (pre ++ post) docs)
    ∧ (docs ≠ [] →
        applyHasConditionsMongo env docCount (pre ++ c :: post) docs = []) := by
  have hsel : ∀ r : Row, sqlHasSelects env relCount (pre ++ c :: post) r
      = sqlHasSelects env relCount (pre ++ post) r := by
    intro r
    unfold sqlHasSelects keptHasConditionsSQL
    rw [List.filter_append, List.filter_append, List.filter_cons]
    simp [hunk]
  refine ⟨hsel, ?_, ?_⟩
  · unfold sqlHasFilter
    exact List.filter_congr (fun d _ => hsel d)
  · intro hne
    unfold applyHasConditionsMongo
    rw [if_neg (by simp [hne])]
    apply List.filter_eq_nil_iff.mpr
    intro d _
    simp only [List.all_append, List.all_cons, hunk, Bool.and_eq_true]
    intro h
    exact absurd h.2.1 (by simp)

/-- Witness for C3: two known conditions around one unknown one, over a
two-document store. -/
theorem c3_unknown_relation_has_condition_witness :
    (sqlHasSelects (fun s => if s = "ghost" then none else some RelKind.hasMany)
        (fun _ _ => 2) [⟨"posts", ">=", 1⟩, ⟨"ghost", ">=", 1⟩]
        (fun _ => vInt 0)
      = sqlHasSelects (fun s => if s = "ghost" then none else some RelKind.hasMany)
        (fun _ _ => 2) [⟨"posts", ">=", 1⟩] (fun _ => vInt 0))
    ∧ applyHasConditionsMongo
        (fun s => if s = "ghost" then none else some RelKind.hasMany)
        (fun _ _ => 2) [⟨"posts", ">=", 1⟩, ⟨"ghost", ">=", 1⟩]
        [fun _ => vInt 0] = [] := by
  obtain ⟨h1, _, h3⟩ :=
    c3_unknown_relation_has_condition
      (fun s => if s = "ghost" then none else some RelKind.hasMany)
      (fun _ _ => 2) (fun _ _ => 2)
      [⟨"posts", ">=", 1⟩] [] ⟨"ghost", ">=", 1⟩ [fun _ => vInt 0]
      (by simp)
  exact ⟨h1 (fun _ => vInt 0), h3 (by simp)⟩

/-! ## C6: entity attribute store and dirty tracking

Attribute maps model JS objects as insertion-ordered association lists with
unique keys (`setIn` updates the first matching key in place, otherwise
appends, exactly like JS property assignment).  `isDirty()` compares
`JSON.stringify` of the two maps; on this value universe with shared key
order that coincides with structural list equality.  The accessor
memoization cache only affects accessor reads and is not modelled (no claim
reads accessors). -/

abbrev AttrMap : Type := List (String × Value)

def lookupA (m : AttrMap) (k : String) : Option Value :=
  (m.find? (fun kv => decide (kv.1 = k))).map (·.2)

def setIn : AttrMap → String → Value → AttrMap
  | [], k, v => [(k, v)]
  | (k', v') :: rest, k, v =>
      if k' = k then (k, v) :: rest else (k', v') :: setIn rest k v

/-- Per-model static metadata consumed by the entity lifecycle.  The cast
map holds the value transformation of `castAttribute` (named cast types are
modelled by the corresponding functions below; the TS `Casts` interface
also admits arbitrary functions). -/
structure EntityCfg where
  primaryKey : String
  casts : String → Option (Value → Value)
  timestamps : Bool
  autoIncrement : Bool
  fillable : List String
  guarded : List String

/-- `castAttribute` for the `bool`/`boolean` cast type: `Boolean(value)`. -/
def castBoolean (v : Value) : Value := vBool (truthy v)

/-- `castAttribute` for the `string` cast type: `String(value)`. -/
def castString (v : Value) : Value := vStr (toStringJS v)

/-- Mirror of the Model instance state used by the lifecycle claims. -/
structure Entity where
  attributes : AttrMap := []
  original : AttrMap := []
  existsFlag : Bool := false
deriving DecidableEq

def applyCast (cfg : EntityCfg) (k : String) (v : Value) : Value :=
  match cfg.casts k with
  | some f => f v
  | none => v

/-- `setAttribute` (line 3308): apply a declared cast, store the value
(and invalidate the accessor cache — not modelled). -/
def setAttribute (cfg : EntityCfg) (e : Entity) (k : String) (v : Value) :
    Entity :=
  { e with attributes := setIn e.attributes k (applyCast cfg k v) }

/-- `hydrate` (line 3318): set every field from the row through
`setAttribute`, snapshot `original`, mark existing. -/
def hydrate (cfg : EntityCfg) (e : Entity) (row : AttrMap) : Entity :=
  let e' := row.foldl (fun acc kv => setAttribute cfg acc kv.1 kv.2) e
  { e' with original := e'.attributes, existsFlag := true }

/-- `fill` (line 3328): only fillable (or all when the list is empty) and
non-guarded keys, through `setAttribute`. -/
def fill (cfg : EntityCfg) (e : Entity) (row : AttrMap) : Entity :=
  row.foldl (fun acc kv =>
    if (cfg.fillable.isEmpty || cfg.fillable.contains kv.1)
        && !cfg.guarded.contains kv.1 then
      setAttribute cfg acc kv.1 kv.2
    else acc) e

def getAttributeRaw (e : Entity) (k : String) : Option Value :=
  lookupA e.attributes k

/-- `isDirty(key)`: strict inequality of the stored and snapshot values. -/
def isDirtyKey (e : Entity) (k : String) : Bool :=
  decide (lookupA e.attributes k ≠ lookupA e.original k)

/-- `isDirty()`: `JSON.stringify` comparison of the two maps. -/
def isDirtyAll (e : Entity) : Bool := decide (e.attributes ≠ e.original)

def truthyOpt : Option Value → Bool
  | none => false
  | some v => truthy v

/-- `save()` (SQL path, lines 3637-3777): timestamp maintenance, insert
vs. update decision, the auto-increment write-back of the driver's insert
id, and the final `original` re-snapshot.  Store writes themselves have no
further effect on the entity; `insertId` is the driver's `result.insertId`.
`options.force` is not exercised by any claim. -/
def save (cfg : EntityCfg) (now : Int) (insertId : Option Value) (e : Entity) :
    Entity :=
  let e1 :=
    if cfg.timestamps then
      let e0 :=
        if truthyOpt (getAttributeRaw e "created_at") then e
        else setAttribute cfg e "created_at" (vDate now)
      setAttribute cfg e0 "updated_at" (vDate now)
    else e
  let id := lookupA e1.attributes cfg.primaryKey
  let doInsert := !e1.existsFlag || (id.isNone && cfg.autoIncrement)
  let e2 :=
    if doInsert then
      let e2a :=
        match insertId with
        | some newId =>
            if cfg.autoIncrement then setAttribute cfg e1 cfg.primaryKey newId
            else e1
        | none => e1
      { e2a with existsFlag := true }
    else e1
  { e2 with original := e2.attributes }

lemma lookupA_setIn_self (m : AttrMap) (k : String) (v : Value) :
    lookupA (setIn m k v) k = some v := by
  induction m with
  | nil => simp [setIn, lookupA]
  | cons kv rest ih =>
      obtain ⟨k', v'⟩ := kv
      by_cases h : k' = k
      · simp [setIn, h, lookupA]
      · have hstep : setIn ((k', v') :: rest) k v = (k', v') :: setIn rest k v := by
          simp [setIn, h]
        rw [hstep]
        have hfind :
            List.find? (fun kv => decide (kv.1 = k)) ((k', v') :: setIn rest k v)
              = List.find? (fun kv => decide (kv.1 = k)) (setIn rest k v) := by
          rw [List.find?_cons_of_neg]
          simpa using h
        simp only [lookupA, hfind]
        simpa [lookupA] using ih

/-- A per-field cast used by the C6 counterexample: `flag` is declared
`boolean`. -/
def cfgBoolCast : EntityCfg :=
  { primaryKey := "id"
    casts := fun k => if k = "flag" then some castBoolean else none
    timestamps := false
    autoIncrement := true
    fillable := []
    guarded := [] }

/-- C6 (corrected): the claim fails as stated — with a declared `boolean`
cast on `flag`, hydrating `flag = true` and then `setAttribute('flag', 1)`
stores `Boolean(1) = true`; the input `1` differs from the current value
`true`, yet `isDirty('flag')` is false. -/
theorem c6_counterexample :
    getAttributeRaw (hydrate cfgBoolCast {} [("flag", vBool true)]) "flag"
        = some (vBool true)
    ∧ vInt 1 ≠ vBool true
    ∧ isDirtyKey
        (setAttribute cfgBoolCast (hydrate cfgBoolCast {} [("flag", vBool true)])
          "flag" (vInt 1)) "flag" = false := by
  refine ⟨rfl, by decide, rfl⟩

/-- C6 (amended): immediately after `hydrate`, `isDirty` is false for every
field (and globally); after `setAttribute(f, v)`, `isDirty(f)` is true
exactly when the stored value — `v` after applying `f`'s declared cast —
differs from the snapshot value of `f`; and after `save()` completes,
`isDirty()` is false again. -/
theorem c6_dirty_tracking (cfg : EntityCfg) (e : Entity) (row : AttrMap)
    (f : String) (v : Value) (now : Int) (insertId : Option Value) :
    (∀ k, isDirtyKey (hydrate cfg e row) k = false)
    ∧ isDirtyAll (hydrate cfg e row) = false
    ∧ isDirtyKey (setAttribute cfg (hydrate cfg e row) f v) f
        = decide (some (applyCast cfg f v)
            ≠ lookupA (hydrate cfg e row).original f)
    ∧ (∀ e' : Entity, isDirtyAll (save cfg now insertId e') = false) := by
  refine ⟨fun k => ?_, ?_, ?_, fun e' => ?_⟩
  · simp [isDirtyKey, hydrate]
  · simp [isDirtyAll, hydrate]
  · simp [isDirtyKey, setAttribute, hydrate, lookupA_setIn_self]
  · simp [isDirtyAll, save]

/-! ## C10: many-to-many mutations with an unsaved parent

`BelongsToMany.attach/detach/sync/toggle` (relationships.ts lines 593-856,
SQL path).  The pivot store is the in-memory list of pivot rows; extra
pivot-column data is not exercised by the claim and plain related ids are
modelled.  `INSERT IGNORE` is modelled under the pivot's composite unique
key on (foreign pivot key, related pivot key). -/

structure PivotRow where
  fkVal : Value
  relVal : Value
deriving DecidableEq

structure SyncResult where
  attached : List Value
  detached : List Value
  updated : List Value
deriving DecidableEq

structure ToggleResult where
  attached : List Value
  detached : List Value
deriving DecidableEq

/-- `getAttribute(parentPrimaryKey)` on the parent entity; `none` models
JS `undefined`. -/
def getParentId (parent : Entity) (pk : String) : Option Value :=
  lookupA parent.attributes pk

def insertIgnorePivot (st : List PivotRow) (pid rid : Value) : List PivotRow :=
  if st.any (fun p => decide (p.fkVal = pid) && decide (p.relVal = rid)) then st
  else st ++ [⟨pid, rid⟩]

/-- Dedup keeping first occurrences (JS `Set` insertion semantics). -/
def jsDedupAux {α : Type} [DecidableEq α] (seen : List α) : List α → List α
  | [] => []
  | v :: rest =>
      if seen.contains v then jsDedupAux seen rest
      else v :: jsDedupAux (v :: seen) rest

def jsDedup {α : Type} [DecidableEq α] (l : List α) : List α := jsDedupAux [] l

/-- `attach` (line 593): neutral return when the parent has no primary-key
value, otherwise one `INSERT IGNORE` per id. -/
def attach (parent : Entity) (pk : String) (ids : List Value)
    (st : List PivotRow) : List PivotRow :=
  match getParentId parent pk with
  | none => st
  | some vNull => st
  | some pid => ids.foldl (fun s rid => insertIgnorePivot s pid rid) st

/-- `detach` (line 650): returns the affected-row count; with a non-empty
id list only those pivot rows are deleted, otherwise all rows of the
parent. -/
def detach (parent : Entity) (pk : String) (ids : Option (List Value))
    (st : List PivotRow) : List PivotRow × Int :=
  match getParentId parent pk with
  | none => (st, 0)
  | some vNull => (st, 0)
  | some pid =>
      let pred : PivotRow → Bool := fun p =>
        decide (p.fkVal = pid)
          && (match ids with
              | some l =>
                  if l.length > 0 then l.any (fun i => decide (p.relVal = i))
                  else true
              | none => true)
      (st.filter (fun p => !pred p), ((st.filter pred).length : Int))

/-- `sync` (line 711) with plain related ids (so `extraData` is empty and
`updated` stays empty).  Membership against the current id set uses
`Set.has(String(id))` — a string-formed probe against raw stored values,
exactly as in the source. -/
def sync (parent : Entity) (pk : String) (ids : List Value)
    (st : List PivotRow) : List PivotRow × SyncResult :=
  match getParentId parent pk with
  | none => (st, ⟨[], [], []⟩)
  | some vNull => (st, ⟨[], [], []⟩)
  | some pid =>
      let currentSet : List Value :=
        jsDedup ((st.filter (fun p => decide (p.fkVal = pid))).map (·.relVal))
      let step :=
        ids.foldl (fun (acc : List PivotRow × List String × List Value) rid =>
          let newIds := acc.2.1 ++ [toStringJS rid]
          if currentSet.contains (vStr (toStringJS rid)) then
            (acc.1, newIds, acc.2.2)
          else
            (insertIgnorePivot acc.1 pid rid, newIds, acc.2.2 ++ [rid]))
          (st, [], [])
      let detachStep :=
        currentSet.foldl (fun (acc : List PivotRow × List Value) c =>
          if step.2.1.contains (toStringJS c) then acc
          else
            (acc.1.filter (fun p =>
              !(decide (p.fkVal = pid) && decide (p.relVal = c))),
              acc.2 ++ [c]))
          (step.1, [])
      (detachStep.1, ⟨step.2.2, detachStep.2, []⟩)

/-- `toggle` (line 797): flip membership for exactly the supplied ids. -/
def toggle (parent : Entity) (pk : String) (ids : List Value)
    (st : List PivotRow) : List PivotRow × ToggleResult :=
  match getParentId parent pk with
  | none => (st, ⟨[], []⟩)
  | some vNull => (st, ⟨[], []⟩)
  | some pid =>
      let currentRows := st.filter (fun p =>
        decide (p.fkVal = pid) && ids.any (fun i => decide (p.relVal = i)))
      let currentIds : List String :=
        jsDedup (currentRows.map (fun p => toStringJS p.relVal))
      let toAttach := ids.filter (fun i => !currentIds.contains (toStringJS i))
      let toDetach := ids.filter (fun i => currentIds.contains (toStringJS i))
      let st1 :=
        if toAttach.length > 0 then
          toAttach.foldl (fun s rid => insertIgnorePivot s pid rid) st
        else st
      let st2 :=
        if toDetach.length > 0 then
          st1.filter (fun p =>
            !(decide (p.fkVal = pid)
              && toDetach.any (fun i => decide (p.relVal = i))))
        else st1
      (st2, ⟨toAttach, toDetach⟩)

/-- C10 (confirmed): when the parent's primary-key attribute is undefined
or null, every many-to-many mutation performs no store write and returns a
neutral result: `attach` returns without inserting, `detach` returns 0,
`sync` returns `{attached: [], detached: [], updated: []}` and `toggle`
returns `{attached: [], detached: []}`. -/
theorem c10_unsaved_parent_neutral (parent : Entity) (pk : String)
    (ids1 : List Value) (ids2 : Option (List Value)) (ids3 ids4 : List Value)
    (st : List PivotRow)
    (hguard : getParentId parent pk = none
      ∨ getParentId parent pk = some vNull) :
    attach parent pk ids1 st = st
    ∧ detach parent pk ids2 st = (st, 0)
    ∧ sync parent pk ids3 st = (st, ⟨[], [], []⟩)
    ∧ toggle parent pk ids4 st = (st, ⟨[], []⟩) := by
  rcases hguard with h | h <;>
    exact ⟨by simp [attach, h], by simp [detach, h], by simp [sync, h],
           by simp [toggle, h]⟩

/-- Witness for C10: an entity with no `id` attribute and a null-id
entity, over a non-empty pivot store. -/
theorem c10_unsaved_parent_neutral_witness :
    attach { attributes := [("name", vStr "a")] } "id" [vInt 1]
        [⟨vInt 9, vInt 9⟩] = [⟨vInt 9, vInt 9⟩]
    ∧ sync { attributes := [("id", vNull)] } "id" [vInt 1]
        [⟨vInt 9, vInt 9⟩] = ([⟨vInt 9, vInt 9⟩], ⟨[], [], []⟩) := by
  obtain ⟨h1, _, _, _⟩ :=
    c10_unsaved_parent_neutral { attributes := [("name", vStr "a")] } "id"
      [vInt 1] none [] [] [⟨vInt 9, vInt 9⟩] (Or.inl (by rfl))
  obtain ⟨_, _, h3, _⟩ :=
    c10_unsaved_parent_neutral { attributes := [("id", vNull)] } "id"
      [] none [vInt 1] [] [⟨vInt 9, vInt 9⟩] (Or.inr (by rfl))
  exact ⟨h1, h3⟩

/-! ## C9: relationship loaders never touch parent attributes

SQL batched loaders `loadHasMany`, `loadHasOne`, `loadBelongsTo`
(lines 1259-1430).  The related store is passed as the list of rows of the
related table; the loader's single batched query (`fk IN (ids)` plus
soft-delete fragment and optional constraint clause) is its filter.  The
optional constraint sub-builder contributes only an additional WHERE
fragment on the related rows, abstracted by a row predicate.  Loaders
attach freshly hydrated related instances through `setRelation`, which
writes only `relationshipsLoaded`. -/

/-- A freshly hydrated related instance (its own loaded-relation map is
empty and not relevant to the claims). -/
structure RInst where
  attributes : AttrMap
  original : AttrMap
  existsFlag : Bool
deriving DecidableEq

inductive LoadedVal where
  | lvNull
  | lvOne (e : RInst)
  | lvList (es : List RInst)
deriving DecidableEq

/-- A parent model instance as seen by the loaders. -/
structure PEntity where
  attributes : AttrMap
  original : AttrMap
  relationshipsLoaded : List (String × LoadedVal)
  existsFlag : Bool
deriving DecidableEq

def setInRel (m : List (String × LoadedVal)) (k : String) (v : LoadedVal) :
    List (String × LoadedVal) :=
  match m with
  | [] => [(k, v)]
  | (k', v') :: rest =>
      if k' = k then (k, v) :: rest else (k', v') :: setInRel rest k v

/-- `setRelation` (line 1127): writes only the loaded-relationship map. -/
def setRelation (m : PEntity) (name : String) (value : LoadedVal) : PEntity :=
  { m with relationshipsLoaded := setInRel m.relationshipsLoaded name value }

/-- `new Related(); inst.hydrate(row)`. -/
def hydrateR (cfg : EntityCfg) (row : AttrMap) : RInst :=
  let attrs := row.foldl (fun acc kv => setIn acc kv.1 (applyCast cfg kv.1 kv.2)) []
  ⟨attrs, attrs, true⟩

/-- SQL `deleted_at IS NULL` on a raw row (absent column or null value). -/
def rowNullAt (r : AttrMap) (c : String) : Bool :=
  match lookupA r c with
  | none => true
  | some v => decide (v = vNull)

/-- The batched related-row query shared by the has-loaders:
`fk IN (localIds)` plus the soft-delete fragment (only without
constraints) plus the optional constraint clause. -/
def relatedQuery (foreignKey : String) (relatedSoftDeletes : Bool)
    (constraints : Option (AttrMap → Bool)) (localIds : List Value)
    (relatedTable : List AttrMap) : List AttrMap :=
  relatedTable.filter (fun r =>
    (localIds.any (fun v =>
      match lookupA r foreignKey with
      | none => false
      | some x => sqlEqTrue x v))
    && (if relatedSoftDeletes && constraints.isNone then rowNullAt r "deleted_at"
        else true)
    && (match constraints with
        | some p => p r
        | none => true))

/-- `loadHasMany` (lines 1314-1371). -/
def loadHasMany (relatedCfg : EntityCfg) (relation localKey foreignKey : String)
    (relatedSoftDeletes : Bool) (constraints : Option (AttrMap → Bool))
    (models : List PEntity) (relatedTable : List AttrMap) : List PEntity :=
  let localIds : List Value :=
    jsDedup (models.filterMap (fun m => lookupA m.attributes localKey))
  if localIds.isEmpty then
    models.map (fun m => setRelation m relation (LoadedVal.lvList []))
  else
    let rows := relatedQuery foreignKey relatedSoftDeletes constraints
      localIds relatedTable
    models.map (fun m =>
      let list := rows.filter (fun r =>
        lookupA r foreignKey == lookupA m.attributes localKey)
      setRelation m relation (LoadedVal.lvList (list.map (hydrateR relatedCfg))))

/-- `loadHasOne` (lines 1259-1312): like `loadHasMany` but the per-parent
lookup map keeps the last row per foreign-key value, and an empty id set
returns without attaching anything. -/
def loadHasOne (relatedCfg : EntityCfg) (relation localKey foreignKey : String)
    (relatedSoftDeletes : Bool) (constraints : Option (AttrMap → Bool))
    (models : List PEntity) (relatedTable : List AttrMap) : List PEntity :=
  let localIds : List Value :=
    jsDedup (models.filterMap (fun m => lookupA m.attributes localKey))
  if localIds.isEmpty then models
  else
    let rows := relatedQuery foreignKey relatedSoftDeletes constraints
      localIds relatedTable
    models.map (fun m =>
      let matching := rows.filter (fun r =>
        lookupA r foreignKey == lookupA m.attributes localKey)
      match matching.getLast? with
      | some row => setRelation m relation (LoadedVal.lvOne (hydrateR relatedCfg row))
      | none => setRelation m relation LoadedVal.lvNull)

/-- `loadBelongsTo` (lines 1373-1430): parent foreign keys (undefined and
null filtered out) matched against the related `ownerKey`. -/
def loadBelongsTo (relatedCfg : EntityCfg) (relation foreignKey ownerKey : String)
    (relatedSoftDeletes : Bool) (constraints : Option (AttrMap → Bool))
    (models : List PEntity) (relatedTable : List AttrMap) : List PEntity :=
  let foreignIds : List Value :=
    jsDedup ((models.filterMap (fun m => lookupA m.attributes foreignKey)).filter
      (fun v => decide (v ≠ vNull)))
  if foreignIds.isEmpty then
    models.map (fun m => setRelation m relation LoadedVal.lvNull)
  else
    let rows := relatedQuery ownerKey relatedSoftDeletes constraints
      foreignIds relatedTable
    models.map (fun m =>
      let matching := rows.filter (fun r =>
        lookupA r ownerKey == lookupA m.attributes foreignKey)
      match matching.getLast? with
      | some row => setRelation m relation (LoadedVal.lvOne (hydrateR relatedCfg row))
      | none => setRelation m relation LoadedVal.lvNull)

lemma setRelation_attributes (m : PEntity) (name : String) (v : LoadedVal) :
    (setRelation m name v).attributes = m.attributes ∧
      (setRelation m name v).original = m.original := ⟨rfl, rfl⟩

lemma map_proj_of_setRelation (models : List PEntity)
    (f : PEntity → PEntity)
    (hf : ∀ m, (f m).attributes = m.attributes ∧ (f m).original = m.original) :
    (models.map f).map (fun m => (m.attributes, m.original))
      = models.map (fun m => (m.attributes, m.original)) := by
  induction models with
  | nil => rfl
  | cons m rest ih => simp [(hf m).1, (hf m).2, ih]

/-- C9 (confirmed): for every batched relationship load (hasMany, hasOne,
belongsTo) over any batch of parent entities, every parent's attribute
store (attributes and dirty-tracking snapshot) is unchanged after the
load: loaders write only into the loaded-relationship map. -/
theorem c9_loaders_preserve_attributes (relatedCfg : EntityCfg)
    (relation lk fk ok : String) (sd : Bool)
    (constraints : Option (AttrMap → Bool))
    (models : List PEntity) (relatedTable : List AttrMap) :
    ((loadHasMany relatedCfg relation lk fk sd constraints models
        relatedTable).map (fun m => (m.attributes, m.original))
      = models.map (fun m => (m.attributes, m.original)))
    ∧ ((loadHasOne relatedCfg relation lk fk sd constraints models
        relatedTable).map (fun m => (m.attributes, m.original))
      = models.map (fun m => (m.attributes, m.original)))
    ∧ ((loadBelongsTo relatedCfg relation fk ok sd constraints models
        relatedTable).map (fun m => (m.attributes, m.original))
      = models.map (fun m => (m.attributes, m.original))) := by
  have attach_one : ∀ (m : PEntity) (matching : List AttrMap),
      ((match matching.getLast? with
        | some row => setRelation m relation (LoadedVal.lvOne (hydrateR relatedCfg row))
        | none => setRelation m relation LoadedVal.lvNull) : PEntity).attributes
          = m.attributes
      ∧ ((match matching.getLast? with
        | some row => setRelation m relation (LoadedVal.lvOne (hydrateR relatedCfg row))
        | none => setRelation m relation LoadedVal.lvNull) : PEntity).original
          = m.original := by
    intro m matching
    cases matching.getLast? <;> exact ⟨rfl, rfl⟩
  refine ⟨?_, ?_, ?_⟩
  · simp only [loadHasMany]
    split
    · exact map_proj_of_setRelation _ _ (fun m => ⟨rfl, rfl⟩)
    · exact map_proj_of_setRelation _ _ (fun m => ⟨rfl, rfl⟩)
  · simp only [loadHasOne]
    split
    · rfl
    · exact map_proj_of_setRelation _ _ (fun m => attach_one m _)
  · simp only [loadBelongsTo]
    split
    · exact map_proj_of_setRelation _ _ (fun m => ⟨rfl, rfl⟩)
    · exact map_proj_of_setRelation _ _ (fun m => attach_one m _)

/-! ## Serializer (C7, C8)

`Model.toJSON` (lines 3045-3176) with `serializeRelationships`
(lines 3261-3305) and `getRelationSerializationOptions` (lines 3481-3518).
Entities live in a heap indexed by `EntityId` (object identity for the
`WeakSet` visited-set); loaded relations reference heap ids.  Depth
bookkeeping follows the source exactly: `toJSON` at depth `d` calls
`serializeRelationships` with depth `d+1`, which serializes each child at
depth `d+2`; recursion stops when depth reaches `maxDepth`.  We carry
`remaining = maxDepth - depth` instead of `(depth, maxDepth)`; the
comparison `depth ≥ maxDepth` becomes `remaining = 0`.  Per-relation
`serialization` overrides of `getRelationSerializationOptions` are unused
by the repository's models and not modelled; the options it builds for a
child drop `exclude` and `withAccessors` (reverting them to their
defaults), which is modelled faithfully.  `includeMetadata` is not claimed
and not modelled. -/

abbrev EntityId := Nat

inductive Json where
  | prim (v : Value)
  | arr (items : List Json)
  | jobj (fields : List (String × Json))

/-- Loaded-relationship values as the serializer sees them: null, a single
related entity or a list (raw non-entity values are not produced by the
loaders). -/
inductive RelRef where
  | rNull
  | rEnt (id : EntityId)
  | rList (ids : List EntityId)

/-- Per-type static metadata used by the serializer. `relations` is
`getAllRelationships()` in declaration order; `accessor` supplies the
computed value of an appended attribute (`getAttribute` on an appends
key). -/
structure SCfg where
  relations : List (String × RelKind)
  hidden : List String
  appends : List String
  accessor : String → Value

structure SEnt where
  attributes : AttrMap
  relationshipsLoaded : List (String × RelRef)

def Heap : Type := EntityId → SEnt

/-- The relation-tree (`relationTree` / `computedTree`), a string-keyed
nested record. -/
inductive RTree where
  | node (children : List (String × RTree))

def RTree.find? : RTree → String → Option RTree
  | RTree.node cs, k => (cs.find? (fun c => decide (c.1 = k))).map (·.2)

def RTree.keys : RTree → List String
  | RTree.node cs => cs.map (·.1)

def RTree.hasChildren : RTree → Bool
  | RTree.node cs => !cs.isEmpty

/-- `cursor[seg] = cursor[seg] || {}` chain: merge a dotted path into the
tree, preserving existing subtrees. -/
def mergePath : RTree → List String → RTree
  | t, [] => t
  | RTree.node cs, seg :: rest =>
      if cs.any (fun c => decide (c.1 = seg)) then
        RTree.node (cs.map (fun c =>
          if c.1 = seg then (seg, mergePath c.2 rest) else c))
      else
        RTree.node (cs ++ [(seg, mergePath (RTree.node []) rest)])

def lookupJ (m : List (String × Json)) (k : String) : Option Json :=
  (m.find? (fun kv => decide (kv.1 = k))).map (·.2)

def setInJ : List (String × Json) → String → Json → List (String × Json)
  | [], k, v => [(k, v)]
  | (k', v') :: rest, k, v =>
      if k' = k then (k, v) :: rest else (k', v') :: setInJ rest k v

def splitChar (sep : Char) : List Char → List (List Char)
  | [] => [[]]
  | c :: rest =>
      if c = sep then [] :: splitChar sep rest
      else
        match splitChar sep rest with
        | [] => [[c]]
        | h :: t => (c :: h) :: t

def splitDot (s : String) : List String :=
  (splitChar '.' s.data).map (fun l => ⟨l⟩)

/-- Include-path partitioning of toJSON lines 3083-3110: dotted paths feed
the computed tree and their head joins the direct relations; plain names
join the direct relations when they are known relations, otherwise they
are attribute includes. -/
def partitionIncludes (knownRelations : List String) (tree : RTree)
    (incl : List String) : RTree × List String × List String :=
  incl.foldl (fun (acc : RTree × List String × List String) path =>
    if path = "" then acc
    else if path.data.contains '.' then
      let segs := splitDot path
      (mergePath acc.1 segs, acc.2.1 ++ [segs.headD ""], acc.2.2)
    else if knownRelations.contains path then (acc.1, acc.2.1 ++ [path], acc.2.2)
    else (acc.1, acc.2.1, acc.2.2 ++ [path]))
    (tree, [], [])

/-- The stable empty placeholder per relation kind (line 3165-3167). -/
def relPlaceholder (kind : RelKind) : Json :=
  match kind with
  | RelKind.hasOne | RelKind.belongsTo | RelKind.morphOne => Json.prim vNull
  | _ => Json.arr []

/-- One appended attribute of toJSON's `withAccessors` loop
(lines 3130-3138). -/
def appendStep (excl includeAttr directRelations : List String)
    (accessor : String → Value) (o : List (String × Json)) (k : String) :
    List (String × Json) :=
  if excl.contains k then o
  else if !includeAttr.isEmpty && !includeAttr.contains k
      && !directRelations.contains k then o
  else setInJ o k (Json.prim (accessor k))

/-- One declared relation of toJSON's fallback placeholder loop
(lines 3154-3169). -/
def placeholderStep (directRelations excl : List String) (tree : RTree)
    (o : List (String × Json)) (rk : String × RelKind) : List (String × Json) :=
  if (lookupJ o rk.1).isSome then o
  else if (!directRelations.isEmpty || tree.hasChildren)
      && !(directRelations.contains rk.1 || (tree.find? rk.1).isSome) then o
  else if !excl.isEmpty && excl.contains rk.1 then o
  else setInJ o rk.1 (relPlaceholder rk.2)

mutual

/-- `toJSON` with `remaining = maxDepth - currentDepth`. -/
def toJSONgo (heap : Heap) (cfg : SCfg) (remaining : Nat) (id : EntityId)
    (incl excl : List String) (tree : RTree)
    (withRel withAcc onlyAppended : Bool) (visited : List EntityId) :
    Json × List EntityId :=
  if visited.contains id then (Json.prim (vStr "[Circular]"), visited)
  else
    let visited := id :: visited
    if h : remaining = 0 then (Json.prim (vStr "[Max Depth Reached]"), visited)
    else
      let ent := heap id
      if onlyAppended then
        (Json.jobj ((cfg.appends.filter (fun k => !excl.contains k)).map
          (fun k => (k, Json.prim (cfg.accessor k)))), visited)
      else
        let knownRelations :=
          ent.relationshipsLoaded.map (·.1) ++ cfg.relations.map (·.1)
        let parts := partitionIncludes knownRelations tree incl
        let computedTree := parts.1
        let directRelations := parts.2.1
        let includeAttr := parts.2.2
        let baseAttributes :=
          ent.attributes.filter (fun kv => !cfg.hidden.contains kv.1)
        let filteredAttributes := baseAttributes.filter (fun kv =>
          (includeAttr.isEmpty || includeAttr.contains kv.1)
            && !excl.contains kv.1)
        let obj0 : List (String × Json) :=
          filteredAttributes.map (fun kv => (kv.1, Json.prim kv.2))
        let obj1 :=
          if withAcc then
            cfg.appends.foldl
              (appendStep excl includeAttr directRelations cfg.accessor) obj0
          else obj0
        let step2 :=
          if withRel && !ent.relationshipsLoaded.isEmpty then
            serializeRels heap cfg (remaining - 1) ent.relationshipsLoaded
              obj1 directRelations excl computedTree withRel visited
          else (obj1, visited)
        let obj3 :=
          if withRel then
            cfg.relations.foldl
              (placeholderStep directRelations excl computedTree) step2.1
          else step2.1
        (Json.jobj obj3, step2.2)
termination_by (remaining, 0, 0)
decreasing_by
  apply Prod.Lex.left
  omega

/-- `serializeRelationships` at depth `d+1` (`remaining` one less than the
caller's): serialize each loaded relation surviving the filters, threading
the shared visited-set; children run at one more depth level with
`include`/`tree` from the nested tree and `exclude`/`withAccessors` reset
to their defaults. -/
def serializeRels (heap : Heap) (cfg : SCfg) (remaining : Nat)
    (rels : List (String × RelRef)) (obj : List (String × Json))
    (directRelations excl : List String) (tree : RTree) (withRel : Bool)
    (visited : List EntityId) : List (String × Json) × List EntityId :=
  match rels with
  | [] => (obj, visited)
  | (rel, ref) :: rest =>
      if excl.contains rel then
        serializeRels heap cfg remaining rest obj directRelations excl tree
          withRel visited
      else
        let hasFilter := !directRelations.isEmpty || tree.hasChildren
        if hasFilter && !directRelations.contains rel
            && !(tree.find? rel).isSome then
          serializeRels heap cfg remaining rest obj directRelations excl tree
            withRel visited
        else
          let nestedTree := (tree.find? rel).getD (RTree.node [])
          match ref with
          | RelRef.rNull =>
              serializeRels heap cfg remaining rest obj directRelations excl
                tree withRel visited
          | RelRef.rEnt cid =>
              let child := toJSONgo heap cfg (remaining - 1) cid
                nestedTree.keys [] nestedTree withRel true false visited
              serializeRels heap cfg remaining rest
                (setInJ obj rel child.1) directRelations excl tree withRel
                child.2
          | RelRef.rList ids =>
              let children := serializeList heap cfg (remaining - 1) ids
                nestedTree.keys nestedTree withRel visited
              serializeRels heap cfg remaining rest
                (setInJ obj rel (Json.arr children.1)) directRelations excl
                tree withRel children.2
termination_by (remaining, 1, rels.length)
decreasing_by
  all_goals first
    | (apply Prod.Lex.right
       apply Prod.Lex.right
       simp [Nat.lt_succ_iff])
    | (rcases Nat.eq_zero_or_pos remaining with h0 | h0
       · rw [h0]
         simp only [Nat.zero_sub]
         apply Prod.Lex.right
         apply Prod.Lex.left
         omega
       · apply Prod.Lex.left
         omega)

/-- Serialize the members of a to-many loaded relation in order, threading
the visited-set. -/
def serializeList (heap : Heap) (cfg : SCfg) (remaining : Nat)
    (ids : List EntityId) (incl : List String) (tree : RTree) (withRel : Bool)
    (visited : List EntityId) : List Json × List EntityId :=
  match ids with
  | [] => ([], visited)
  | cid :: rest =>
      let child := toJSONgo heap cfg remaining cid incl [] tree withRel true
        false visited
      let tail := serializeList heap cfg remaining rest incl tree withRel
        child.2
      (child.1 :: tail.1, tail.2)
termination_by (remaining, 0, ids.length + 1)
decreasing_by
  all_goals
    apply Prod.Lex.right
    apply Prod.Lex.right
    simp [Nat.lt_succ_iff]

end

/-- Key lookup on a serialized object (absent on non-objects). -/
def jsonLookup : Json → String → Option Json
  | Json.jobj fields, k => lookupJ fields k
  | _, _ => none

lemma lookupJ_setInJ_self (m : List (String × Json)) (k : String) (v : Json) :
    lookupJ (setInJ m k v) k = some v := by
  induction m with
  | nil => simp [setInJ, lookupJ]
  | cons kv rest ih =>
      obtain ⟨k', v'⟩ := kv
      by_cases h : k' = k
      · simp [setInJ, h, lookupJ]
      · have hstep : setInJ ((k', v') :: rest) k v = (k', v') :: setInJ rest k v := by
          simp [setInJ, h]
        rw [hstep]
        have hfind :
            List.find? (fun kv => decide (kv.1 = k)) ((k', v') :: setInJ rest k v)
              = List.find? (fun kv => decide (kv.1 = k)) (setInJ rest k v) := by
          rw [List.find?_cons_of_neg]
          simpa using h
        simp only [lookupJ, hfind]
        simpa [lookupJ] using ih

lemma lookupJ_setInJ_ne (m : List (String × Json)) (k k' : String) (v : Json)
    (h : k' ≠ k) : lookupJ (setInJ m k' v) k = lookupJ m k := by
  induction m with
  | nil => simp [setInJ, lookupJ, h]
  | cons kv rest ih =>
      obtain ⟨k₀, v₀⟩ := kv
      by_cases h0 : k₀ = k'
      · subst h0
        have hstep : setInJ ((k₀, v₀) :: rest) k₀ v = (k₀, v) :: rest := by
          simp [setInJ]
        rw [hstep]
        simp [lookupJ, List.find?, h]
      · have hstep : setInJ ((k₀, v₀) :: rest) k' v = (k₀, v₀) :: setInJ rest k' v := by
          simp [setInJ, h0]
        rw [hstep]
        by_cases hk : k₀ = k
        · simp [lookupJ, List.find?, hk]
        · simp only [lookupJ, List.find?]
          rw [show (decide (((k₀ : String), v₀).1 = k)) = false by simpa using hk]
          simpa [lookupJ] using ih

lemma foldl_lookup_congr {α : Type} (l : List α)
    (step : List (String × Json) → α → List (String × Json)) (rel : String)
    (hstep : ∀ o a, a ∈ l → lookupJ (step o a) rel = lookupJ o rel)
    (o : List (String × Json)) :
    lookupJ (l.foldl step o) rel = lookupJ o rel := by
  induction l generalizing o with
  | nil => rfl
  | cons a rest ih =>
      rw [List.foldl_cons, ih (fun o' a' ha' => hstep o' a' (by simp [ha'])) _,
          hstep o a (by simp)]

lemma foldl_lookup_some {α : Type} (l : List α)
    (step : List (String × Json) → α → List (String × Json)) (rel : String)
    (x : Json)
    (hstep : ∀ o a, a ∈ l → lookupJ o rel = some x →
      lookupJ (step o a) rel = some x)
    (o : List (String × Json)) (ho : lookupJ o rel = some x) :
    lookupJ (l.foldl step o) rel = some x := by
  induction l generalizing o with
  | nil => exact ho
  | cons a rest ih =>
      rw [List.foldl_cons]
      exact ih (fun o' a' ha' => hstep o' a' (by simp [ha'])) _
        (hstep o a (by simp) ho)

lemma appendStep_lookup_ne (excl ia dr : List String)
    (accessor : String → Value) (o : List (String × Json)) (k rel : String)
    (h : k ≠ rel) :
    lookupJ (appendStep excl ia dr accessor o k) rel = lookupJ o rel := by
  unfold appendStep
  split_ifs <;> first | rfl | exact lookupJ_setInJ_ne _ _ _ _ h

lemma placeholderStep_preserve_some (dr excl : List String) (tree : RTree)
    (o : List (String × Json)) (rk : String × RelKind) (rel : String) (x : Json)
    (ho : lookupJ o rel = some x) :
    lookupJ (placeholderStep dr excl tree o rk) rel = some x := by
  unfold placeholderStep
  by_cases hk : rk.1 = rel
  · rw [hk, if_pos (by simp [ho])]
    exact ho
  · split_ifs <;>
      first | exact ho | (rw [lookupJ_setInJ_ne _ _ _ _ hk]; exact ho)

lemma placeholderStep_lookup_ne (dr excl : List String) (tree : RTree)
    (o : List (String × Json)) (rk : String × RelKind) (rel : String)
    (h : rk.1 ≠ rel) :
    lookupJ (placeholderStep dr excl tree o rk) rel = lookupJ o rel := by
  unfold placeholderStep
  split_ifs <;> first | rfl | exact lookupJ_setInJ_ne _ _ _ _ h

/-- The fallback placeholder loop emits the declared placeholder for a
relation whose key is still absent and which survives the filters. -/
lemma placeholder_foldl_sets (rels : List (String × RelKind))
    (dr excl : List String) (tree : RTree) (rel : String) (kind : RelKind)
    (o : List (String × Json))
    (hfind : rels.find? (fun c => decide (c.1 = rel)) = some (rel, kind))
    (ho : lookupJ o rel = none)
    (hallow : ((!dr.isEmpty || tree.hasChildren)
        && !(dr.contains rel || (tree.find? rel).isSome)) = false)
    (hexcl : excl.contains rel = false) :
    lookupJ (rels.foldl (placeholderStep dr excl tree) o) rel
      = some (relPlaceholder kind) := by
  induction rels generalizing o with
  | nil => simp at hfind
  | cons rk rest ih =>
      by_cases hk : rk.1 = rel
      · have hrk : rk = (rel, kind) := by
          rw [List.find?_cons_of_pos _ (by simpa using hk)] at hfind
          exact Option.some_inj.mp hfind
        subst hrk
        have hstep : placeholderStep dr excl tree o (rel, kind)
            = setInJ o rel (relPlaceholder kind) := by
          show (if (lookupJ o rel).isSome then o
              else if (!dr.isEmpty || tree.hasChildren)
                  && !(dr.contains rel || (tree.find? rel).isSome) then o
              else if !excl.isEmpty && excl.contains rel then o
              else setInJ o rel (relPlaceholder kind))
            = setInJ o rel (relPlaceholder kind)
          rw [if_neg (by rw [ho]; exact Bool.false_ne_true),
              if_neg (by rw [hallow]; exact Bool.false_ne_true),
              if_neg (by rw [hexcl]; simp)]
        rw [List.foldl_cons, hstep]
        exact foldl_lookup_some rest _ rel _
          (fun o' a _ hx => placeholderStep_preserve_some dr excl tree o' a rel _ hx)
          _ (lookupJ_setInJ_self o rel _)
      · have hfind' : rest.find? (fun c => decide (c.1 = rel)) = some (rel, kind) := by
          rw [List.find?_cons_of_neg _ (by simpa using hk)] at hfind
          exact hfind
        rw [List.foldl_cons]
        exact ih _ hfind'
          (by rw [placeholderStep_lookup_ne dr excl tree o rk rel hk]; exact ho)

/-- `serializeRelationships` leaves a key untouched when every loaded entry
with that name carries a null value (or no entry has the name). -/
lemma serializeRels_lookup_preserve (heap : Heap) (cfg : SCfg)
    (remaining : Nat) (rels : List (String × RelRef))
    (dr excl : List String) (tree : RTree) (wr : Bool) (rel : String)
    (h : ∀ p ∈ rels, p.1 ≠ rel ∨ p.2 = RelRef.rNull)
    (obj : List (String × Json)) (visited : List EntityId) :
    lookupJ (serializeRels heap cfg remaining rels obj dr excl tree wr
      visited).1 rel = lookupJ obj rel := by
  induction rels generalizing obj visited with
  | nil => simp [serializeRels]
  | cons p rest ih =>
      obtain ⟨r, ref⟩ := p
      have hrest : ∀ p ∈ rest, p.1 ≠ rel ∨ p.2 = RelRef.rNull :=
        fun p hp => h p (by simp [hp])
      have hhead : r ≠ rel ∨ ref = RelRef.rNull := by simpa using h (r, ref) (by simp)
      simp only [serializeRels]
      split
      · exact ih hrest _ _
      · split
        · exact ih hrest _ _
        · cases ref with
          | rNull => exact ih hrest _ _
          | rEnt cid =>
              have hr : r ≠ rel := by
                rcases hhead with hr | habs
                · exact hr
                · exact absurd habs (by simp)
              rw [ih hrest _ _]
              exact lookupJ_setInJ_ne _ _ _ _ hr
          | rList ids =>
              have hr : r ≠ rel := by
                rcases hhead with hr | habs
                · exact hr
                · exact absurd habs (by simp)
              rw [ih hrest _ _]
              exact lookupJ_setInJ_ne _ _ _ _ hr

/-- `serializeRelationships` emits `[]` for a to-many relation loaded with
zero matches (when no filter suppresses it). -/
lemma serializeRels_sets_empty_list (heap : Heap) (cfg : SCfg)
    (remaining : Nat) (pre post : List (String × RelRef))
    (dr excl : List String) (tree : RTree) (wr : Bool) (rel : String)
    (hpre : ∀ p ∈ pre, p.1 ≠ rel ∨ p.2 = RelRef.rNull)
    (hpost : ∀ p ∈ post, p.1 ≠ rel ∨ p.2 = RelRef.rNull)
    (hexcl : excl.contains rel = false)
    (hallow : ((!dr.isEmpty || tree.hasChildren) && !dr.contains rel
        && !(tree.find? rel).isSome) = false)
    (obj : List (String × Json)) (visited : List EntityId) :
    lookupJ (serializeRels heap cfg remaining
      (pre ++ (rel, RelRef.rList []) :: post) obj dr excl tree wr
      visited).1 rel = some (Json.arr []) := by
  induction pre generalizing obj visited with
  | nil =>
      simp only [List.nil_append, serializeRels]
      rw [if_neg (by rw [hexcl]; exact Bool.false_ne_true),
          if_neg (by rw [hallow]; exact Bool.false_ne_true)]
      simp only [serializeList]
      rw [serializeRels_lookup_preserve heap cfg remaining post dr excl tree wr
        rel hpost _ _]
      exact lookupJ_setInJ_self obj rel _
  | cons p pre' ih =>
      obtain ⟨r, ref⟩ := p
      have hpre' : ∀ p ∈ pre', p.1 ≠ rel ∨ p.2 = RelRef.rNull :=
        fun p hp => hpre p (by simp [hp])
      have hhead : r ≠ rel ∨ ref = RelRef.rNull := by
        simpa using hpre (r, ref) (by simp)
      simp only [List.cons_append, serializeRels]
      split
      · exact ih hpre' _ _
      · split
        · exact ih hpre' _ _
        · cases ref with
          | rNull => exact ih hpre' _ _
          | rEnt cid => exact ih hpre' _ _
          | rList ids => exact ih hpre' _ _

lemma lookupJ_map_prim_none (l : AttrMap) (rel : String)
    (h : ∀ kv ∈ l, kv.1 ≠ rel) :
    lookupJ (l.map (fun kv => (kv.1, Json.prim kv.2))) rel = none := by
  induction l with
  | nil => rfl
  | cons kv rest ih =>
      have hk : kv.1 ≠ rel := h kv (by simp)
      simp only [List.map_cons, lookupJ, List.find?]
      rw [show (decide ((kv.1, Json.prim kv.2).1 = rel)) = false by simpa using hk]
      exact ih (fun kv' hkv' => h kv' (by simp [hkv']))

/-- The attribute-and-appends part of the serialized object has no key for
a name that is neither an attribute nor an appended field. -/
lemma obj1_lookup_none (accessor : String → Value) (appends : List String)
    (attrs : AttrMap) (wa : Bool) (ia dr excl : List String)
    (p1 p2 : String × Value → Bool) (rel : String)
    (hna : ∀ kv ∈ attrs, kv.1 ≠ rel) (hnap : rel ∉ appends) :
    lookupJ (if wa = true then
        List.foldl (appendStep excl ia dr accessor)
          ((List.filter p2 (List.filter p1 attrs)).map
            (fun kv => (kv.1, Json.prim kv.2))) appends
      else
        (List.filter p2 (List.filter p1 attrs)).map
          (fun kv => (kv.1, Json.prim kv.2))) rel = none := by
  have hobj0 : lookupJ ((List.filter p2 (List.filter p1 attrs)).map
      (fun kv => (kv.1, Json.prim kv.2))) rel = none :=
    lookupJ_map_prim_none _ rel (fun kv hkv =>
      hna kv (List.mem_filter.mp (List.mem_filter.mp hkv).1).1)
  cases wa with
  | false => simpa using hobj0
  | true =>
      rw [if_pos rfl, foldl_lookup_congr appends _ rel
        (fun o a ha => appendStep_lookup_ne excl ia dr accessor o a rel
          (fun he => hnap (he ▸ ha)))]
      exact hobj0

/-! ## C7 / C8 theorems -/

/-- Two mutually referencing entities: `0.related = 1`, `1.related = 0`,
both loaded. -/
def cycleHeap : Heap := fun i =>
  if i = 0 then ⟨[("id", vInt 1)], [("related", RelRef.rEnt 1)]⟩
  else ⟨[("id", vInt 2)], [("related", RelRef.rEnt 0)]⟩

def cycleCfg : SCfg := ⟨[("related", RelKind.hasOne)], [], [], fun _ => vNull⟩

/-- A type declaring two relations; the entity has loaded neither. -/
def c7Heap : Heap := fun _ => ⟨[("id", vInt 1)], []⟩

def c7Cfg : SCfg :=
  ⟨[("posts", RelKind.hasMany), ("profile", RelKind.hasOne)], [], [],
    fun _ => vNull⟩

/-- C7 (corrected): the claim fails as stated.  Serializing an entity under
an active relation tree (as `toArray` does after `with('profile')`):
`posts` is declared on the type and not loaded, yet it is *absent* from the
output — only the relation selected by the tree (`profile`) receives its
placeholder. -/
theorem c7_counterexample :
    jsonLookup (toJSONgo c7Heap c7Cfg 10 0 [] []
        (RTree.node [("profile", RTree.node [])]) true true false []).1 "posts"
      = none
    ∧ jsonLookup (toJSONgo c7Heap c7Cfg 10 0 [] []
        (RTree.node [("profile", RTree.node [])]) true true false []).1 "profile"
      = some (Json.prim vNull) := by
  constructor <;>
    simp [toJSONgo, serializeRels, serializeList, c7Heap, c7Cfg, jsonLookup,
          partitionIncludes, lookupJ, setInJ, RTree.find?, RTree.keys,
          RTree.hasChildren, relPlaceholder, appendStep, placeholderStep,
          List.find?]

/-- C7 (amended): when serialized without an inclusion filter (empty
include list and empty relation tree), every relation declared on the type
whose name is not loaded (or loaded as null) appears under the stable
empty placeholder of its kind ([] for to-many, null for to-one), and an
included to-many relation that loaded zero matches appears as the empty
array; under an active relation-tree filter, a declared relation not
selected by the filter is omitted from the output. -/
theorem c7_shape_stability (heap : Heap) (cfg : SCfg) (remaining : Nat)
    (id : EntityId) (rel : String) (kind : RelKind) (visited : List EntityId)
    (wa : Bool)
    (hrem : remaining ≠ 0) (hvis : visited.contains id = false)
    (hna : ∀ kv ∈ (heap id).attributes, kv.1 ≠ rel)
    (hnap : rel ∉ cfg.appends) :
    ((cfg.relations.find? (fun c => decide (c.1 = rel)) = some (rel, kind)) →
      (∀ p ∈ (heap id).relationshipsLoaded, p.1 ≠ rel ∨ p.2 = RelRef.rNull) →
      jsonLookup (toJSONgo heap cfg remaining id [] [] (RTree.node [])
          true wa false visited).1 rel = some (relPlaceholder kind))
    ∧ (∀ pre post, (∀ p ∈ pre, p.1 ≠ rel ∨ p.2 = RelRef.rNull) →
        (∀ p ∈ post, p.1 ≠ rel ∨ p.2 = RelRef.rNull) →
        (heap id).relationshipsLoaded = pre ++ (rel, RelRef.rList []) :: post →
        jsonLookup (toJSONgo heap cfg remaining id [] [] (RTree.node [])
            true wa false visited).1 rel = some (Json.arr []))
    ∧ (∀ tree : RTree, tree.hasChildren = true → tree.find? rel = none →
        (∀ p ∈ (heap id).relationshipsLoaded, p.1 ≠ rel ∨ p.2 = RelRef.rNull) →
        jsonLookup (toJSONgo heap cfg remaining id [] [] tree
            true wa false visited).1 rel = none) := by
  refine ⟨?_, ?_, ?_⟩
  · intro hdecl hnl
    simp only [toJSONgo, hvis, hrem, partitionIncludes, List.foldl_nil,
               jsonLookup, Bool.true_and, Bool.false_eq_true, if_false,
               dite_false]
    rw [if_pos trivial]
    refine placeholder_foldl_sets _ _ _ _ _ _ _ hdecl ?_ (by rfl) (by rfl)
    by_cases hL : (heap id).relationshipsLoaded.isEmpty = true
    · rw [if_neg (by rw [hL]; decide)]
      exact obj1_lookup_none cfg.accessor cfg.appends (heap id).attributes wa
        _ _ _ _ _ rel hna hnap
    · have hL' : (heap id).relationshipsLoaded.isEmpty = false :=
        Bool.eq_false_iff.mpr hL
      rw [if_pos (by rw [hL']; rfl)]
      rw [serializeRels_lookup_preserve heap cfg (remaining - 1) _ [] []
        (RTree.node []) true rel hnl _ _]
      exact obj1_lookup_none cfg.accessor cfg.appends (heap id).attributes wa
        _ _ _ _ _ rel hna hnap
  · intro pre post hpre hpost heq
    simp only [toJSONgo, hvis, hrem, partitionIncludes, List.foldl_nil,
               jsonLookup, Bool.true_and, Bool.false_eq_true, if_false,
               dite_false]
    rw [if_pos trivial]
    refine foldl_lookup_some cfg.relations _ rel _
      (fun o a _ hx => placeholderStep_preserve_some _ _ _ o a rel _ hx) _ ?_
    rw [heq, if_pos (by simp)]
    exact serializeRels_sets_empty_list heap cfg (remaining - 1) pre post [] []
      (RTree.node []) true rel hpre hpost rfl (by rfl) _ _
  · intro tree hch hfind hnl
    simp only [toJSONgo, hvis, hrem, partitionIncludes, List.foldl_nil,
               jsonLookup, Bool.true_and, Bool.false_eq_true, if_false,
               dite_false]
    rw [if_pos trivial]
    have hcongr : ∀ (o : List (String × Json)) (a : String × RelKind),
        a ∈ cfg.relations →
        lookupJ (placeholderStep [] [] tree o a) rel = lookupJ o rel := by
      intro o a _
      by_cases hk : a.1 = rel
      · have hstep : placeholderStep [] [] tree o a = o := by
          unfold placeholderStep
          by_cases h1 : (lookupJ o a.1).isSome = true
          · rw [if_pos h1]
          · rw [if_neg h1, if_pos (by rw [hk]; simp [hch, hfind])]
        rw [hstep]
      · exact placeholderStep_lookup_ne _ _ _ o a rel hk
    rw [foldl_lookup_congr cfg.relations _ rel hcongr]
    by_cases hL : (heap id).relationshipsLoaded.isEmpty = true
    · rw [if_neg (by rw [hL]; decide)]
      exact obj1_lookup_none cfg.accessor cfg.appends (heap id).attributes wa
        _ _ _ _ _ rel hna hnap
    · have hL' : (heap id).relationshipsLoaded.isEmpty = false :=
        Bool.eq_false_iff.mpr hL
      rw [if_pos (by rw [hL']; rfl)]
      rw [serializeRels_lookup_preserve heap cfg (remaining - 1) _ [] []
        tree true rel hnl _ _]
      exact obj1_lookup_none cfg.accessor cfg.appends (heap id).attributes wa
        _ _ _ _ _ rel hna hnap

/-- Witness for C7 (amended): at a concrete entity with declared relations
`posts` (to-many) and `profile` (to-one), neither loaded — without a
filter, `posts` serializes to the empty-array placeholder; under the tree
filter `with(profile)`, `posts` is absent. -/
theorem c7_shape_stability_witness :
    jsonLookup (toJSONgo c7Heap c7Cfg 10 0 [] [] (RTree.node [])
        true false false []).1 "posts" = some (relPlaceholder RelKind.hasMany)
    ∧ jsonLookup (toJSONgo c7Heap c7Cfg 10 0 [] []
        (RTree.node [("profile", RTree.node [])]) true false false []).1 "posts"
      = none :=
  ⟨(c7_shape_stability c7Heap c7Cfg 10 0 "posts" RelKind.hasMany [] false
      (by decide) (by decide)
      (by intro kv hkv; simp [c7Heap] at hkv; simp [hkv])
      (by simp [c7Cfg])).1
    (by rfl) (by intro p hp; simp [c7Heap] at hp),
   (c7_shape_stability c7Heap c7Cfg 10 0 "posts" RelKind.hasMany [] false
      (by decide) (by decide)
      (by intro kv hkv; simp [c7Heap] at hkv; simp [hkv])
      (by simp [c7Cfg])).2.2
    (RTree.node [("profile", RTree.node [])]) (by rfl) (by rfl)
    (by intro p hp; simp [c7Heap] at hp)⟩

/-- C8 (confirmed): serialization of an entity graph terminates even on
cycles — an entity already present in the visited-set is rendered as the
circular-reference marker before any depth check, recursion at or beyond
the max depth yields the depth-limit marker, and serializing two mutually
referencing entities with both relations loaded terminates marking the
second occurrence as circular.  (Termination is witnessed by `toJSONgo`
being a total function evaluated on the cyclic heap.) -/
theorem c8_cycle_safety :
    (∀ (heap : Heap) (cfg : SCfg) (remaining : Nat) (id : EntityId)
        (incl excl : List String) (tree : RTree) (wr wa oa : Bool)
        (visited : List EntityId),
      visited.contains id = true →
      toJSONgo heap cfg remaining id incl excl tree wr wa oa visited
        = (Json.prim (vStr "[Circular]"), visited))
    ∧ (∀ (heap : Heap) (cfg : SCfg) (id : EntityId) (incl excl : List String)
        (tree : RTree) (wr wa oa : Bool) (visited : List EntityId),
      visited.contains id = false →
      toJSONgo heap cfg 0 id incl excl tree wr wa oa visited
        = (Json.prim (vStr "[Max Depth Reached]"), id :: visited))
    ∧ (toJSONgo cycleHeap cycleCfg 10 0 [] [] (RTree.node [])
          true true false []).1
        = Json.jobj [("id", Json.prim (vInt 1)),
            ("related", Json.jobj [("id", Json.prim (vInt 2)),
              ("related", Json.prim (vStr "[Circular]"))])] := by
  refine ⟨?_, ?_, ?_⟩
  · intro heap cfg remaining id incl excl tree wr wa oa visited h
    have hm : id ∈ visited := by simpa using h
    simp [toJSONgo, hm]
  · intro heap cfg id incl excl tree wr wa oa visited h
    have hm : id ∉ visited := by simpa using h
    simp [toJSONgo, hm]
  · simp [toJSONgo, serializeRels, serializeList, cycleHeap, cycleCfg,
          partitionIncludes, lookupJ, setInJ, RTree.find?, RTree.keys,
          RTree.hasChildren, relPlaceholder, appendStep, placeholderStep]

/-- Witness for C8: the circular and depth-limit guards at concrete
inputs. -/
theorem c8_cycle_safety_witness :
    toJSONgo cycleHeap cycleCfg 10 0 [] [] (RTree.node []) true true false [0]
      = (Json.prim (vStr "[Circular]"), [0])
    ∧ toJSONgo cycleHeap cycleCfg 0 1 [] [] (RTree.node []) true true false []
      = (Json.prim (vStr "[Max Depth Reached]"), [1]) := by
  obtain ⟨h1, h2, _⟩ := c8_cycle_safety
  exact ⟨h1 _ _ _ _ _ _ _ _ _ _ _ rfl, h2 _ _ _ _ _ _ _ _ _ _ rfl⟩

end Eloquent
